import Mathlib

/-! Rate-limit reconciliation (`handlers/ratelimit.go`)

A shallow embedding of the five get-then-create-or-replace functions
(`createQuota`, `createMemQuota`, `createRule`, `createQuotaSpec`,
`createQuotaSpecBinding`) and of `HandleRateLimit`, over an abstract REST
client.  Every remote call is appended to a trace kept next to the state of
the remote store, so that the order and the content of the calls can be
stated.
-/

set_option autoImplicit false
set_option linter.dupNamespace false

/-- A Go `[]byte`; the nil slice is the empty list. -/
abbrev Bytes := List Nat

/-- A Go `map[string]string`, as the list of its entries. -/
abbrev StrMap := List (String × String)

/-- A Go `error` value: its text (`err.Error()`) and whether
`errors.IsNotFound` holds of it. -/
structure Error where
  msg : String
  notFound : Bool
deriving DecidableEq, Repr

namespace errors

/-- The test `errors.IsNotFound(err)` on a possibly nil error. -/
def IsNotFound (err : Option Error) : Bool :=
  match err with
  | some e => e.notFound
  | none => false

end errors

namespace time

/-- A `time.Duration`, in nanoseconds. -/
abbrev Duration := Int

/-- The constant `time.Second`. -/
def Second : Duration := 1000000000

end time

namespace rest

/-- The HTTP verb of a `rest.Request`. -/
inductive Verb where
  | GET
  | PUT
  | POST
deriving DecidableEq, Repr

/-- A `rest.Request` as the code builds it: verb, `Resource(..)`,
`Namespace(..)`, `Name(..)` and, for a write, `Body(..)`. -/
structure Request where
  verb : Verb
  resource : String
  ns : String
  name : String
  body : Option Bytes
deriving DecidableEq, Repr

/-- A `rest.Result`: what `Raw()` returns (bytes and error) and what
`StatusCode` stores. -/
structure Result where
  body : Bytes
  err : Option Error
  statusCode : Int
deriving DecidableEq, Repr

/-- A `*rest.RESTClient` over a remote store of type `σ`: `Do()` on a request
answers with a result and leaves the remote store in a new state. -/
abbrev RESTClient (σ : Type) := Request → σ → Result × σ

end rest

/-- The remote store together with the log of the requests sent so far. -/
structure World (σ : Type) where
  remote : σ
  trace : List rest.Request

namespace rest

/-- The call `req.Do()`: the request is logged and answered by the client. -/
def Do {σ : Type} (c : RESTClient σ) (req : Request) (w : World σ) : Result × World σ :=
  ((c req w.remote).1, { remote := (c req w.remote).2, trace := w.trace ++ [req] })

end rest

namespace config

/-- The memquota adapter's `config.Params_Override`. -/
structure Params_Override where
  Dimensions : StrMap
  MaxAmount : Int
  ValidDuration : time.Duration
deriving DecidableEq, Repr

/-- The memquota adapter's `config.Params_Quota`. -/
structure Params_Quota where
  Name : String
  MaxAmount : Int
  ValidDuration : time.Duration
  Overrides : List Params_Override
deriving DecidableEq, Repr

end config

namespace client

/-- The mixer client's `client.Quota`. -/
structure Quota where
  Quota : String
  Charge : Int
deriving DecidableEq, Repr

/-- The mixer client's `client.AttributeMatch`. -/
structure AttributeMatch where
  Clause : StrMap
deriving DecidableEq, Repr

/-- The mixer client's `client.QuotaRule`. -/
structure QuotaRule where
  Match : List AttributeMatch
  Quotas : List Quota
deriving DecidableEq, Repr

/-- The mixer client's `client.IstioService`. -/
structure IstioService where
  Name : String
  Namespace : String
  Domain : String
  Service : String
  Labels : StrMap
deriving DecidableEq, Repr

/-- The mixer client's `client.QuotaSpecBinding_QuotaSpecReference`. -/
structure QuotaSpecBinding_QuotaSpecReference where
  Name : String
  Namespace : String
deriving DecidableEq, Repr

/-- The mixer client's `client.QuotaSpecBinding`. -/
structure QuotaSpecBinding where
  Services : List IstioService
  QuotaSpecs : List QuotaSpecBinding_QuotaSpecReference
deriving DecidableEq, Repr

end client

namespace model

/-- Modelled from the spec: the package `model` is not under src/. Every
field of a resource object outside its `Spec`: the name and namespace the
object is stored under, and whatever else the store keeps with it. -/
structure Meta where
  name : String
  ns : String
  extra : StrMap
deriving DecidableEq, Repr

/-- Modelled from the spec: `model.StructAction` is not under src/; the
handler name and the quota instance names of one action. -/
structure StructAction where
  Handler : String
  Instances : List String
deriving DecidableEq, Repr

/-- Modelled from the spec: the `Spec` of `model.StructQuota` (not under
src/): the dimension map, next to any other field. -/
structure QuotaParams where
  Dimensions : StrMap
  extra : StrMap
deriving DecidableEq, Repr

/-- Modelled from the spec: `model.StructQuota` is not under src/. -/
structure StructQuota where
  meta : Meta
  Spec : QuotaParams
deriving DecidableEq, Repr

/-- Modelled from the spec: the `Spec` of `model.StructMemQuota` (not under
src/): the list of quota policies, next to any other field. -/
structure MemQuotaParams where
  Quotas : List config.Params_Quota
  extra : StrMap
deriving DecidableEq, Repr

/-- Modelled from the spec: `model.StructMemQuota` is not under src/. -/
structure StructMemQuota where
  meta : Meta
  Spec : MemQuotaParams
deriving DecidableEq, Repr

/-- Modelled from the spec: the `Spec` of `model.StructRule` (not under
src/): the list of actions, next to any other field. -/
structure RuleParams where
  Actions : List StructAction
  extra : StrMap
deriving DecidableEq, Repr

/-- Modelled from the spec: `model.StructRule` is not under src/. -/
structure StructRule where
  meta : Meta
  Spec : RuleParams
deriving DecidableEq, Repr

/-- Modelled from the spec: the `Spec` of `model.StructQuotaSpec` (not under
src/): the list of quota rules, next to any other field. -/
structure QuotaSpecParams where
  Rules : List client.QuotaRule
  extra : StrMap
deriving DecidableEq, Repr

/-- Modelled from the spec: `model.StructQuotaSpec` is not under src/. -/
structure StructQuotaSpec where
  meta : Meta
  Spec : QuotaSpecParams
deriving DecidableEq, Repr

/-- Modelled from the spec: `model.StructQuotaSpecBinding` is not under
src/; its `Spec` is the binding itself. -/
structure StructQuotaSpecBinding where
  meta : Meta
  Spec : client.QuotaSpecBinding
deriving DecidableEq, Repr

/-- Modelled from the spec: the constructor `model.Quota` is not under src/.
A fresh object of the given name and namespace carrying the given
dimensions. -/
def Quota (name ns : String) (dimensions : StrMap) : StructQuota :=
  { meta := { name := name, ns := ns, extra := [] },
    Spec := { Dimensions := dimensions, extra := [] } }

/-- Modelled from the spec: the constructor `model.MemQuota` is not under
src/. A fresh object of the given name and namespace carrying the given
quota policies. -/
def MemQuota (name ns : String) (quotas : List config.Params_Quota) : StructMemQuota :=
  { meta := { name := name, ns := ns, extra := [] },
    Spec := { Quotas := quotas, extra := [] } }

/-- Modelled from the spec: the constructor `model.Rule` is not under src/.
A fresh object of the given name and namespace carrying the given actions. -/
def Rule (name ns : String) (actions : List StructAction) : StructRule :=
  { meta := { name := name, ns := ns, extra := [] },
    Spec := { Actions := actions, extra := [] } }

/-- Modelled from the spec: the constructor `model.QuotaSpec` is not under
src/. A fresh object of the given name and namespace carrying the given
quota rules. -/
def QuotaSpec (name ns : String) (rules : List client.QuotaRule) : StructQuotaSpec :=
  { meta := { name := name, ns := ns, extra := [] },
    Spec := { Rules := rules, extra := [] } }

/-- Modelled from the spec: the constructor `model.QuotaSpecBinding` is not
under src/. A fresh object of the given name and namespace carrying the given
binding. -/
def QuotaSpecBinding (name ns : String) (binding : client.QuotaSpecBinding) :
    StructQuotaSpecBinding :=
  { meta := { name := name, ns := ns, extra := [] }, Spec := binding }

/-- Modelled from the spec: `model.Chassis` is not under src/; of the parsed
configuration only `Cse.Flowcontrol.Provider.QPS.Limit` is read. The list
holds the entries of that map in the order in which a `range` loop over it
visits them. -/
structure Chassis where
  Limit : List (String × Int)
deriving DecidableEq, Repr

end model

/-- The pair `json.Marshal` / `json.Unmarshal` at one Go type. The handlers
unmarshal into a nil pointer (`var quota *model.StructQuota`,
`json.Unmarshal(bs, &quota)`), so decoding has three outcomes: an error; no
error and an object behind the pointer; no error and the pointer still nil
(the payload `null`). -/
structure Codec (α : Type) where
  Marshal : α → Bytes
  Unmarshal : Bytes → Except Error (Option α)

/-- What the handlers take from outside this file: the constructor of REST
clients (`utils.CreateRestClient`, which yields a client or an error), the
JSON codec at each of the five resource types and the YAML parser of the
request body. -/
structure Env (σ : Type) where
  CreateRestClient : String → String → String → Except Error (rest.RESTClient σ)
  jsonQuota : Codec model.StructQuota
  jsonMemQuota : Codec model.StructMemQuota
  jsonRule : Codec model.StructRule
  jsonQuotaSpec : Codec model.StructQuotaSpec
  jsonQuotaSpecBinding : Codec model.StructQuotaSpecBinding
  yamlUnmarshal : Bytes → Except Error model.Chassis

/-- How a Go function ends: it returns a value, or it panics. -/
inductive Outcome (α : Type) where
  | ret (v : α)
  | panic
deriving DecidableEq, Repr

namespace http

/-- The parts of an `*http.Request` that `HandleRateLimit` reads: the
method, the result of `ioutil.ReadAll(r.Body)` and `r.Header.Get`. -/
structure Request where
  Method : String
  Body : Except Error Bytes
  Header : String → String

/-- What a handler wrote to its `http.ResponseWriter`: the status of
`WriteHeader` and the text of `Write` (empty when `Write` was not called). -/
structure Response where
  status : Nat
  body : String
deriving DecidableEq, Repr

end http

namespace handlers

/-- The Go type of what an upsert returns, `([]byte, error)`. -/
abbrev Ret := Bytes × Option Error

/-- The function `createMemQuota` (ratelimit.go, lines 20-64). The error of
`utils.CreateRestClient` is not looked at; when there is one there is no
client and `restclient.Get()` dereferences nil. When the payload decodes
without error to a nil pointer, the assignment to `memquota.Spec.Quotas`
(line 53) dereferences nil. -/
def createMemQuota {σ : Type} (env : Env σ) (memquotaName ns : String) (dimensions : StrMap)
    (w : World σ) : Outcome Ret × World σ :=
  let paramsQuota : config.Params_Quota :=
    { Name := "memquota-quota-" ++ memquotaName,
      MaxAmount := 1000,
      ValidDuration := time.Second,
      Overrides := [{ Dimensions := dimensions, MaxAmount := 1, ValidDuration := time.Second * 5 }] }
  match env.CreateRestClient "apis" "config.istio.io" "v1alpha2" with
  | .error _ => (.panic, w)
  | .ok restclient =>
    let r := rest.Do restclient ⟨.GET, "memquotas", ns, memquotaName, none⟩ w
    let bs := r.1.body
    let err := r.1.err
    let resultStatusCode := r.1.statusCode
    if err.isSome && !errors.IsNotFound err then (.ret ([], err), r.2)
    else if resultStatusCode = 200 then
      match env.jsonMemQuota.Unmarshal bs with
      | .error e => (.ret ([], some e), r.2)
      | .ok none => (.panic, r.2)
      | .ok (some memquota) =>
        let memquota := { memquota with Spec := { memquota.Spec with Quotas := [paramsQuota] } }
        let r2 := rest.Do restclient
          ⟨.PUT, "memquotas", ns, memquotaName, some (env.jsonMemQuota.Marshal memquota)⟩ r.2
        (.ret (r2.1.body, r2.1.err), r2.2)
    else
      let memquota := model.MemQuota memquotaName ns [paramsQuota]
      let r2 := rest.Do restclient
        ⟨.POST, "memquotas", ns, memquotaName, some (env.jsonMemQuota.Marshal memquota)⟩ r.2
      (.ret (r2.1.body, r2.1.err), r2.2)

/-- The function `createRule` (ratelimit.go, lines 66-104). When the payload
decodes without error to a nil pointer, the assignment to `rule.Spec.Actions`
(line 92) dereferences nil. The comments of lines 83 and 95 speak of a quota;
what the code gets, replaces and creates is a rule. -/
def createRule {σ : Type} (env : Env σ) (name ns : String) (actions : List model.StructAction)
    (w : World σ) : Outcome Ret × World σ :=
  match env.CreateRestClient "/apis" "config.istio.io" "v1alpha2" with
  | .error err => (.ret ([], some err), w)
  | .ok restclient =>
    let r := rest.Do restclient ⟨.GET, "rules", ns, name, none⟩ w
    let bs := r.1.body
    let err := r.1.err
    let resultStatusCode := r.1.statusCode
    if err.isSome && !errors.IsNotFound err then (.ret ([], err), r.2)
    else if resultStatusCode = 200 then
      match env.jsonRule.Unmarshal bs with
      | .error e => (.ret ([], some e), r.2)
      | .ok none => (.panic, r.2)
      | .ok (some rule) =>
        let rule := { rule with Spec := { rule.Spec with Actions := actions } }
        let r2 := rest.Do restclient
          ⟨.PUT, "rules", ns, name, some (env.jsonRule.Marshal rule)⟩ r.2
        (.ret (r2.1.body, r2.1.err), r2.2)
    else
      let rule := model.Rule name ns actions
      let r2 := rest.Do restclient
        ⟨.POST, "rules", ns, name, some (env.jsonRule.Marshal rule)⟩ r.2
      (.ret (r2.1.body, r2.1.err), r2.2)

/-- The function `createQuota` (ratelimit.go, lines 106-147). When the
payload decodes without error to a nil pointer, the assignment to
`quota.Spec.Dimensions` (line 135) dereferences nil. -/
def createQuota {σ : Type} (env : Env σ) (quotaName ns : String) (dimensions : StrMap)
    (w : World σ) : Outcome Ret × World σ :=
  match env.CreateRestClient "/apis" "config.istio.io" "v1alpha2" with
  | .error err => (.ret ([], some err), w)
  | .ok restclient =>
    let r := rest.Do restclient ⟨.GET, "quotas", ns, quotaName, none⟩ w
    let resultStatusCode := r.1.statusCode
    let bs := r.1.body
    let err := r.1.err
    if err.isSome && !errors.IsNotFound err then (.ret ([], err), r.2)
    else if resultStatusCode = 200 then
      match env.jsonQuota.Unmarshal bs with
      | .error e => (.ret ([], some e), r.2)
      | .ok none => (.panic, r.2)
      | .ok (some quota) =>
        let quota := { quota with Spec := { quota.Spec with Dimensions := dimensions } }
        let r2 := rest.Do restclient
          ⟨.PUT, "quotas", ns, quotaName, some (env.jsonQuota.Marshal quota)⟩ r.2
        (.ret (r2.1.body, r2.1.err), r2.2)
    else
      let quota := model.Quota quotaName ns dimensions
      let r2 := rest.Do restclient
        ⟨.POST, "quotas", ns, quotaName, some (env.jsonQuota.Marshal quota)⟩ r.2
      (.ret (r2.1.body, r2.1.err), r2.2)

/-- The function `createQuotaSpec` (ratelimit.go, lines 149-185). When the
payload decodes without error to a nil pointer, the assignment to
`quotaspec.Spec.Rules` (line 173) dereferences nil. -/
def createQuotaSpec {σ : Type} (env : Env σ) (quotaspecName ns : String)
    (rules : List client.QuotaRule) (w : World σ) : Outcome Ret × World σ :=
  match env.CreateRestClient "/apis" "config.istio.io" "v1alpha2" with
  | .error err => (.ret ([], some err), w)
  | .ok restclient =>
    let r := rest.Do restclient ⟨.GET, "quotaspecs", ns, quotaspecName, none⟩ w
    let resultStatusCode := r.1.statusCode
    let bs := r.1.body
    let err := r.1.err
    if err.isSome && !errors.IsNotFound err then (.ret ([], err), r.2)
    else if resultStatusCode = 200 then
      match env.jsonQuotaSpec.Unmarshal bs with
      | .error e => (.ret ([], some e), r.2)
      | .ok none => (.panic, r.2)
      | .ok (some quotaspec) =>
        let quotaspec := { quotaspec with Spec := { quotaspec.Spec with Rules := rules } }
        let r2 := rest.Do restclient
          ⟨.PUT, "quotaspecs", ns, quotaspecName, some (env.jsonQuotaSpec.Marshal quotaspec)⟩ r.2
        (.ret (r2.1.body, r2.1.err), r2.2)
    else
      let quotaspec := model.QuotaSpec quotaspecName ns rules
      let r2 := rest.Do restclient
        ⟨.POST, "quotaspecs", ns, quotaspecName, some (env.jsonQuotaSpec.Marshal quotaspec)⟩ r.2
      (.ret (r2.1.body, r2.1.err), r2.2)

/-- The function `createQuotaSpecBinding` (ratelimit.go, lines 187-223).
When the payload decodes without error to a nil pointer, the assignment to
`quotaspecBinding.Spec` (line 211) dereferences nil. -/
def createQuotaSpecBinding {σ : Type} (env : Env σ) (quotaspecName ns : String)
    (binding : client.QuotaSpecBinding) (w : World σ) : Outcome Ret × World σ :=
  match env.CreateRestClient "/apis" "config.istio.io" "v1alpha2" with
  | .error err => (.ret ([], some err), w)
  | .ok restclient =>
    let r := rest.Do restclient ⟨.GET, "quotaspecbindings", ns, quotaspecName, none⟩ w
    let resultStatusCode := r.1.statusCode
    let bs := r.1.body
    let err := r.1.err
    if err.isSome && !errors.IsNotFound err then (.ret ([], err), r.2)
    else if resultStatusCode = 200 then
      match env.jsonQuotaSpecBinding.Unmarshal bs with
      | .error e => (.ret ([], some e), r.2)
      | .ok none => (.panic, r.2)
      | .ok (some quotaspecBinding) =>
        let quotaspecBinding := { quotaspecBinding with Spec := binding }
        let r2 := rest.Do restclient
          ⟨.PUT, "quotaspecbindings", ns, quotaspecName,
            some (env.jsonQuotaSpecBinding.Marshal quotaspecBinding)⟩ r.2
        (.ret (r2.1.body, r2.1.err), r2.2)
    else
      let quotaspecBinding := model.QuotaSpecBinding quotaspecName ns binding
      let r2 := rest.Do restclient
        ⟨.POST, "quotaspecbindings", ns, quotaspecName,
          some (env.jsonQuotaSpecBinding.Marshal quotaspecBinding)⟩ r.2
      (.ret (r2.1.body, r2.1.err), r2.2)

/-- The loop of lines 267-275: `source` is the key of the first entry the
`range` visits, and the empty string when there is none. -/
def firstKey : List (String × Int) → String → Nat → String
  | [], source, _ => source
  | (k, _) :: rest, _, n => if n + 1 ≥ 1 then k else firstKey rest k (n + 1)

/-- The handler `HandleRateLimit` (ratelimit.go, lines 225-368). -/
def HandleRateLimit {σ : Type} (env : Env σ) (r : http.Request) (w : World σ) :
    Outcome http.Response × World σ :=
  if r.Method ≠ "POST" then
    (.ret ⟨405, "Method " ++ r.Method ++ " not allowed"⟩, w)
  else
  match r.Body with
  | .error _ => (.ret ⟨500, "Failed to read request body"⟩, w)
  | .ok bs =>
  let contentType := r.Header "Content-Type"
  if contentType = "application/json" then
    (.ret ⟨400, "application/json is not yet supported"⟩, w)
  else
  match env.yamlUnmarshal bs with
  | .error _ => (.ret ⟨500, "Failed to parse YAML"⟩, w)
  | .ok chassis =>
  let serviceName := r.Header "service_name"
  if serviceName = "" then
    (.ret ⟨400, "service name is not provided"⟩, w)
  else
  let limit := chassis.Limit
  let source := firstKey limit "" 0
  let ns := "lance-test"
  let quotaName := "requestcount-" ++ serviceName
  let dimensions : StrMap :=
    [ ("destination", "destination.labels[\"app\"] | destination.service | \"unknown\""),
      ("destinationVersion", "destination.labels[\"version\"] | \"unknown\""),
      ("source", "source.labels[\"app\"] | source.service | \"unknown\""),
      ("sourceVersion", "source.labels[\"version\"] | \"unknown\"") ]
  match createQuota env quotaName ns dimensions w with
  | (.panic, w1) => (.panic, w1)
  | (.ret (_, some _), w1) => (.ret ⟨500, ""⟩, w1)
  | (.ret (_, none), w1) =>
  let memquotaDimensions : StrMap := [("destination", serviceName), ("source", source)]
  let memquotaName := "handler-" ++ serviceName
  match createMemQuota env memquotaName ns memquotaDimensions w1 with
  | (.panic, w2) => (.panic, w2)
  | (.ret (_, some err), w2) => (.ret ⟨500, err.msg⟩, w2)
  | (.ret (_, none), w2) =>
  let actions : List model.StructAction :=
    [{ Handler := memquotaName ++ ".memquota", Instances := ["requestcount.quota"] }]
  let ruleName := "quota-" ++ serviceName
  match createRule env ruleName ns actions w2 with
  | (.panic, w3) => (.panic, w3)
  | (.ret (_, some err), w3) => (.ret ⟨500, err.msg⟩, w3)
  | (.ret (_, none), w3) =>
  let quotaspecName := "request-count-" ++ serviceName
  let rules : List client.QuotaRule :=
    [{ Match := [], Quotas := [{ Quota := "quota-" ++ serviceName, Charge := 1 }] }]
  match createQuotaSpec env quotaspecName ns rules w3 with
  | (.panic, w4) => (.panic, w4)
  | (.ret (_, some err), w4) => (.ret ⟨500, err.msg⟩, w4)
  | (.ret (_, none), w4) =>
  let quotaspecBindingName := "request-count-binding-" ++ serviceName
  let binding : client.QuotaSpecBinding :=
    { Services :=
        [ { Name := serviceName, Namespace := "default", Domain := "", Service := "", Labels := [] },
          { Name := source, Namespace := "default", Domain := "", Service := "", Labels := [] } ],
      QuotaSpecs := [{ Name := "request-count-" ++ serviceName, Namespace := ns }] }
  match createQuotaSpecBinding env quotaspecBindingName ns binding w4 with
  | (.panic, w5) => (.panic, w5)
  | (.ret (_, some err), w5) => (.ret ⟨500, err.msg⟩, w5)
  | (.ret (_, none), w5) => (.ret ⟨201, ""⟩, w5)

end handlers

/-! ## The upsert primitive -/

/-- The get-then-create-or-replace operation of the design, for one resource
kind, as the five functions carry it out: GET; abort on an error other than
not-found; on status 200 decode (a decode error is returned, a nil object is
dereferenced), mutate and PUT; otherwise POST a fresh object. -/
def upsert {σ α : Type} (restclient : rest.RESTClient σ) (cd : Codec α)
    (resource ns name : String) (mutate : α → α) (fresh : α) (w : World σ) :
    Outcome handlers.Ret × World σ :=
  let r := rest.Do restclient ⟨.GET, resource, ns, name, none⟩ w
  if r.1.err.isSome && !errors.IsNotFound r.1.err then (.ret ([], r.1.err), r.2)
  else if r.1.statusCode = 200 then
    match cd.Unmarshal r.1.body with
    | .error e => (.ret ([], some e), r.2)
    | .ok none => (.panic, r.2)
    | .ok (some x) =>
      let r2 := rest.Do restclient ⟨.PUT, resource, ns, name, some (cd.Marshal (mutate x))⟩ r.2
      (.ret (r2.1.body, r2.1.err), r2.2)
  else
    let r2 := rest.Do restclient ⟨.POST, resource, ns, name, some (cd.Marshal fresh)⟩ r.2
    (.ret (r2.1.body, r2.1.err), r2.2)

/-- The quota policy `createMemQuota` builds (lines 21-32). -/
def paramsQuota (memquotaName : String) (dimensions : StrMap) : config.Params_Quota :=
  { Name := "memquota-quota-" ++ memquotaName,
    MaxAmount := 1000,
    ValidDuration := time.Second,
    Overrides := [{ Dimensions := dimensions, MaxAmount := 1, ValidDuration := time.Second * 5 }] }

/-! ## Vocabulary for stating what an upsert does -/

/-- The GET request of an upsert. -/
def getReq (resource ns name : String) : rest.Request :=
  ⟨.GET, resource, ns, name, none⟩

/-- A write request is a PUT or a POST. -/
def isWrite (q : rest.Request) : Bool :=
  decide (q.verb = .PUT) || decide (q.verb = .POST)

/-- A read request is a GET. -/
def isRead (q : rest.Request) : Bool :=
  decide (q.verb = .GET)

/-- The requests logged between the world `w` and a later world `w2`. -/
def newCalls {σ : Type} (w w2 : World σ) : List rest.Request :=
  w2.trace.drop w.trace.length

/-- An error is fatal for an upsert when it is there and is not a not-found. -/
def fatal (err : Option Error) : Bool :=
  err.isSome && !errors.IsNotFound err

/-- The contract of one upsert function `f` that talks through the client
`c` to the resource `resource`/`ns`/`name` with the codec `cd`, where
`freshBody` is the encoded fresh object:
* a GET error that is not a not-found is returned, and only the GET is sent;
* otherwise, on status 200, a payload that fails to decode makes `f` return
  the decode error with only the GET sent, and a payload that decodes to an
  object makes `f` send a PUT to the same resource, namespace and name;
* otherwise `f` sends a POST of the fresh object to the same resource,
  namespace and name.
In the last two cases `f` returns what the write returned. Nothing is said of
a payload that decodes to no object. -/
def UpsertContract {σ α : Type} (f : World σ → Outcome handlers.Ret × World σ)
    (c : rest.RESTClient σ) (cd : Codec α) (resource ns name : String)
    (freshBody : Bytes) : Prop :=
  ∀ w : World σ,
    (∀ e, (rest.Do c (getReq resource ns name) w).1.err = some e → e.notFound = false →
      f w = (.ret ([], some e), (rest.Do c (getReq resource ns name) w).2) ∧
      (f w).2.trace = w.trace ++ [getReq resource ns name]) ∧
    ((∀ e, (rest.Do c (getReq resource ns name) w).1.err = some e → e.notFound = true) →
      (rest.Do c (getReq resource ns name) w).1.statusCode = 200 →
      (∀ e, cd.Unmarshal (rest.Do c (getReq resource ns name) w).1.body = .error e →
        f w = (.ret ([], some e), (rest.Do c (getReq resource ns name) w).2) ∧
        (f w).2.trace = w.trace ++ [getReq resource ns name]) ∧
      (∀ x, cd.Unmarshal (rest.Do c (getReq resource ns name) w).1.body = .ok (some x) →
        ∃ body,
          f w =
            (.ret ((rest.Do c ⟨.PUT, resource, ns, name, some body⟩
                      (rest.Do c (getReq resource ns name) w).2).1.body,
                   (rest.Do c ⟨.PUT, resource, ns, name, some body⟩
                      (rest.Do c (getReq resource ns name) w).2).1.err),
              (rest.Do c ⟨.PUT, resource, ns, name, some body⟩
                (rest.Do c (getReq resource ns name) w).2).2) ∧
          (f w).2.trace =
            w.trace ++ [getReq resource ns name, ⟨.PUT, resource, ns, name, some body⟩])) ∧
    ((∀ e, (rest.Do c (getReq resource ns name) w).1.err = some e → e.notFound = true) →
      (rest.Do c (getReq resource ns name) w).1.statusCode ≠ 200 →
      f w =
        (.ret ((rest.Do c ⟨.POST, resource, ns, name, some freshBody⟩
                  (rest.Do c (getReq resource ns name) w).2).1.body,
               (rest.Do c ⟨.POST, resource, ns, name, some freshBody⟩
                  (rest.Do c (getReq resource ns name) w).2).1.err),
          (rest.Do c ⟨.POST, resource, ns, name, some freshBody⟩
            (rest.Do c (getReq resource ns name) w).2).2) ∧
      (f w).2.trace =
        w.trace ++ [getReq resource ns name, ⟨.POST, resource, ns, name, some freshBody⟩])

/-! ## An in-memory remote store and a byte format, to run the handlers on -/

/-- A serialisation of the values of a type into bytes that can be read
back, whatever follows them. -/
class Wire (α : Type) where
  put : α → Bytes
  get : Bytes → Option (α × Bytes)
  get_put : ∀ (a : α) (rest : Bytes), get (put a ++ rest) = some (a, rest)

/-- The elements of a list, one after the other. -/
def Wire.putList {α : Type} [Wire α] : List α → Bytes
  | [] => []
  | a :: l => Wire.put a ++ Wire.putList l

/-- Reads back a given number of elements. -/
def Wire.getList {α : Type} [Wire α] : Nat → Bytes → Option (List α × Bytes)
  | 0, bs => some ([], bs)
  | k + 1, bs =>
    match Wire.get bs with
    | none => none
    | some (a, r) =>
      match Wire.getList k r with
      | none => none
      | some (l, r2) => some (a :: l, r2)

/-- Serialises through another type into which the type embeds. -/
def Wire.via {α β : Type} [Wire β] (f : α → β) (g : β → α) (h : ∀ a, g (f a) = a) : Wire α where
  put a := Wire.put (f a)
  get bs := match (Wire.get bs : Option (β × Bytes)) with
    | none => none
    | some (b, r) => some (g b, r)
  get_put a rest := by
    simp only [Wire.get_put, h]

instance : Wire Nat where
  put n := [n]
  get bs := match bs with
    | n :: r => some (n, r)
    | [] => none
  get_put _ _ := rfl

instance : Wire Int where
  put i := match i with
    | .ofNat n => [0, n]
    | .negSucc n => [1, n]
  get bs := match bs with
    | 0 :: n :: r => some (.ofNat n, r)
    | 1 :: n :: r => some (.negSucc n, r)
    | _ => none
  get_put i _ := by cases i <;> rfl

instance {α : Type} [Wire α] : Wire (List α) where
  put l := l.length :: Wire.putList l
  get bs := match bs with
    | n :: r => Wire.getList n r
    | [] => none
  get_put l rest := by
    simp only [List.cons_append]
    induction l with
    | nil => rfl
    | cons a l ih =>
      simp only [Wire.putList, List.length_cons, Wire.getList, List.append_assoc,
        Wire.get_put, ih]

instance {α β : Type} [Wire α] [Wire β] : Wire (α × β) where
  put p := Wire.put p.1 ++ Wire.put p.2
  get bs := match Wire.get bs with
    | none => none
    | some (a, r) =>
      match Wire.get r with
      | none => none
      | some (b, r2) => some ((a, b), r2)
  get_put p rest := by
    simp only [List.append_assoc, Wire.get_put]

instance : Wire String where
  put s := Wire.put (s.toList.map Char.toNat)
  get bs := match (Wire.get bs : Option (List Nat × Bytes)) with
    | none => none
    | some (l, r) => some (String.mk (l.map Char.ofNat), r)
  get_put s rest := by
    have hc : (Char.ofNat ∘ Char.toNat) = id := by
      funext c
      simp [Char.ofNat_toNat]
    simp [Wire.get_put, List.map_map, hc]

instance : Wire model.Meta :=
  Wire.via (fun m => (m.name, m.ns, m.extra)) (fun p => ⟨p.1, p.2.1, p.2.2⟩) (fun _ => rfl)

instance : Wire model.StructAction :=
  Wire.via (fun a => (a.Handler, a.Instances)) (fun p => ⟨p.1, p.2⟩) (fun _ => rfl)

instance : Wire config.Params_Override :=
  Wire.via (fun o => (o.Dimensions, o.MaxAmount, o.ValidDuration))
    (fun p => ⟨p.1, p.2.1, p.2.2⟩) (fun _ => rfl)

instance : Wire config.Params_Quota :=
  Wire.via (fun q => (q.Name, q.MaxAmount, q.ValidDuration, q.Overrides))
    (fun p => ⟨p.1, p.2.1, p.2.2.1, p.2.2.2⟩) (fun _ => rfl)

instance : Wire client.Quota :=
  Wire.via (fun q => (q.Quota, q.Charge)) (fun p => ⟨p.1, p.2⟩) (fun _ => rfl)

instance : Wire client.AttributeMatch :=
  Wire.via (fun m => m.Clause) (fun p => ⟨p⟩) (fun _ => rfl)

instance : Wire client.QuotaRule :=
  Wire.via (fun q => (q.Match, q.Quotas)) (fun p => ⟨p.1, p.2⟩) (fun _ => rfl)

instance : Wire client.IstioService :=
  Wire.via (fun s => (s.Name, s.Namespace, s.Domain, s.Service, s.Labels))
    (fun p => ⟨p.1, p.2.1, p.2.2.1, p.2.2.2.1, p.2.2.2.2⟩) (fun _ => rfl)

instance : Wire client.QuotaSpecBinding_QuotaSpecReference :=
  Wire.via (fun s => (s.Name, s.Namespace)) (fun p => ⟨p.1, p.2⟩) (fun _ => rfl)

instance : Wire client.QuotaSpecBinding :=
  Wire.via (fun b => (b.Services, b.QuotaSpecs)) (fun p => ⟨p.1, p.2⟩) (fun _ => rfl)

instance : Wire model.StructQuota :=
  Wire.via (fun x => (x.meta, x.Spec.Dimensions, x.Spec.extra))
    (fun p => ⟨p.1, ⟨p.2.1, p.2.2⟩⟩) (fun _ => rfl)

instance : Wire model.StructMemQuota :=
  Wire.via (fun x => (x.meta, x.Spec.Quotas, x.Spec.extra))
    (fun p => ⟨p.1, ⟨p.2.1, p.2.2⟩⟩) (fun _ => rfl)

instance : Wire model.StructRule :=
  Wire.via (fun x => (x.meta, x.Spec.Actions, x.Spec.extra))
    (fun p => ⟨p.1, ⟨p.2.1, p.2.2⟩⟩) (fun _ => rfl)

instance : Wire model.StructQuotaSpec :=
  Wire.via (fun x => (x.meta, x.Spec.Rules, x.Spec.extra))
    (fun p => ⟨p.1, ⟨p.2.1, p.2.2⟩⟩) (fun _ => rfl)

instance : Wire model.StructQuotaSpecBinding :=
  Wire.via (fun x => (x.meta, x.Spec)) (fun p => ⟨p.1, p.2⟩) (fun _ => rfl)

/-- The codec of a serialisable type. An object is written as the byte 1
followed by its bytes; the payload `null` is the single byte 0. A payload
decodes to an object when it is exactly the bytes written for one, and to no
object, without error, when it is `null`. -/
def wireCodec (α : Type) [Wire α] : Codec α where
  Marshal x := 1 :: Wire.put x
  Unmarshal bs :=
    match bs with
    | [0] => .ok none
    | 1 :: rest =>
      match (Wire.get rest : Option (α × Bytes)) with
      | some (a, []) => .ok (some a)
      | _ => .error ⟨"invalid payload", false⟩
    | _ => .error ⟨"invalid payload", false⟩

/-- The state of the in-memory store: the payload kept under each resource
kind, namespace and name. -/
abbrev Store := String × String × String → Option Bytes

/-- The in-memory store as a REST client: a GET of a stored name answers
status 200 with the stored payload, a GET of any other name answers
not-found; a PUT or a POST succeeds and stores the payload sent. -/
def memClient : rest.RESTClient Store := fun q st =>
  match q.verb with
  | .GET =>
    match st (q.resource, q.ns, q.name) with
    | some b => (⟨b, none, 200⟩, st)
    | none => (⟨[], some ⟨"not found", true⟩, 404⟩, st)
  | .PUT =>
    (⟨q.body.getD [], none, 200⟩,
      Function.update st (q.resource, q.ns, q.name) (some (q.body.getD [])))
  | .POST =>
    (⟨q.body.getD [], none, 201⟩,
      Function.update st (q.resource, q.ns, q.name) (some (q.body.getD [])))

/-- The environment in which every REST client is the in-memory store, the
payloads are in the byte format above and the request body parses to the
given configuration. -/
def memEnv (chassis : model.Chassis) : Env Store where
  CreateRestClient _ _ _ := .ok memClient
  jsonQuota := wireCodec model.StructQuota
  jsonMemQuota := wireCodec model.StructMemQuota
  jsonRule := wireCodec model.StructRule
  jsonQuotaSpec := wireCodec model.StructQuotaSpec
  jsonQuotaSpecBinding := wireCodec model.StructQuotaSpecBinding
  yamlUnmarshal _ := .ok chassis

/-- The empty store with nothing logged. -/
def emptyWorld : World Store :=
  { remote := fun _ => none, trace := [] }

/-! ## Counting the calls of an upsert -/

/-- The number of GET requests in a list of requests. -/
def reads (t : List rest.Request) : Nat :=
  (t.filter isRead).length

/-- The number of PUT and POST requests in a list of requests. -/
def writes (t : List rest.Request) : Nat :=
  (t.filter isWrite).length

/-- Every run of `f` sends exactly one GET and exactly one write. -/
def OneReadOneWrite {σ : Type} (f : World σ → Outcome handlers.Ret × World σ) : Prop :=
  ∀ w : World σ, reads (newCalls w (f w).2) = 1 ∧ writes (newCalls w (f w).2) = 1

/-- Every run of `f` through the client `c` sends exactly one GET; it sends
no write when the GET fails with an error other than not-found or answers
status 200 with a payload that fails to decode; and it sends exactly one
write when the GET does not fail so and answers a status other than 200 or a
payload that decodes to an object. -/
def OneReadAtMostOneWrite {σ α : Type} (f : World σ → Outcome handlers.Ret × World σ)
    (c : rest.RESTClient σ) (cd : Codec α) (resource ns name : String) : Prop :=
  ∀ w : World σ,
    reads (newCalls w (f w).2) = 1 ∧
    ((fatal (rest.Do c (getReq resource ns name) w).1.err = true ∨
        ((rest.Do c (getReq resource ns name) w).1.statusCode = 200 ∧
          ∃ e, cd.Unmarshal (rest.Do c (getReq resource ns name) w).1.body = .error e)) →
      writes (newCalls w (f w).2) = 0) ∧
    ((fatal (rest.Do c (getReq resource ns name) w).1.err = false ∧
        ((rest.Do c (getReq resource ns name) w).1.statusCode ≠ 200 ∨
          ∃ x, cd.Unmarshal (rest.Do c (getReq resource ns name) w).1.body = .ok (some x))) →
      writes (newCalls w (f w).2) = 1)

/-- A client whose every call fails with a transport error. -/
def refusingClient : rest.RESTClient Unit := fun _ st =>
  (⟨[], some ⟨"connection refused", false⟩, 0⟩, st)

/-- An environment whose REST clients cannot reach the remote store. -/
def refusingEnv : Env Unit where
  CreateRestClient _ _ _ := .ok refusingClient
  jsonQuota := wireCodec model.StructQuota
  jsonMemQuota := wireCodec model.StructMemQuota
  jsonRule := wireCodec model.StructRule
  jsonQuotaSpec := wireCodec model.StructQuotaSpec
  jsonQuotaSpecBinding := wireCodec model.StructQuotaSpecBinding
  yamlUnmarshal _ := .ok ⟨[]⟩

/-- The update path of the upsert function `f` changes only what `owned`
allows: when the GET answers status 200 with a payload that decodes to the
object `x`,
every write `f` sends is a PUT, to the same resource, namespace and name, of
an object `y` with `owned x y`; and this PUT is sent whenever the GET did not
fail with an error other than not-found. -/
def UpdateFrame {σ α : Type} (f : World σ → Outcome handlers.Ret × World σ)
    (c : rest.RESTClient σ) (cd : Codec α) (resource ns name : String)
    (owned : α → α → Prop) : Prop :=
  ∀ (w : World σ) (x : α),
    (rest.Do c (getReq resource ns name) w).1.statusCode = 200 →
    cd.Unmarshal (rest.Do c (getReq resource ns name) w).1.body = .ok (some x) →
    (∀ q ∈ newCalls w (f w).2, isWrite q = true →
      ∃ y, q = ⟨.PUT, resource, ns, name, some (cd.Marshal y)⟩ ∧ owned x y) ∧
    (fatal (rest.Do c (getReq resource ns name) w).1.err = false →
      ∃ y, newCalls w (f w).2 =
          [getReq resource ns name, ⟨.PUT, resource, ns, name, some (cd.Marshal y)⟩] ∧
        owned x y)

/-! ## Vocabulary for stating what `HandleRateLimit` does -/

/-- The request `r` passes the checks of lines 226-263 in the environment
`env`: it is a POST whose body can be read, is not declared as JSON and
parses to a configuration with the limit map `limit`, and it names the
service `serviceName`, which is not empty. -/
def Accepted {σ : Type} (env : Env σ) (r : http.Request) (serviceName : String)
    (limit : List (String × Int)) : Prop :=
  r.Method = "POST" ∧
  (∃ bs, r.Body = .ok bs ∧ env.yamlUnmarshal bs = .ok ⟨limit⟩) ∧
  r.Header "Content-Type" ≠ "application/json" ∧
  r.Header "service_name" = serviceName ∧
  serviceName ≠ ""

/-- The dimension template of lines 280-285. -/
def quotaDimensions : StrMap :=
  [ ("destination", "destination.labels[\"app\"] | destination.service | \"unknown\""),
    ("destinationVersion", "destination.labels[\"version\"] | \"unknown\""),
    ("source", "source.labels[\"app\"] | source.service | \"unknown\""),
    ("sourceVersion", "source.labels[\"version\"] | \"unknown\"") ]

/-- The binding of lines 343-360. -/
def bindingOf (serviceName source : String) : client.QuotaSpecBinding :=
  { Services :=
      [ { Name := serviceName, Namespace := "default", Domain := "", Service := "", Labels := [] },
        { Name := source, Namespace := "default", Domain := "", Service := "", Labels := [] } ],
    QuotaSpecs := [{ Name := "request-count-" ++ serviceName, Namespace := "lance-test" }] }

/-- The upsert that `HandleRateLimit` calls as its step `k` (counted from 0),
with the arguments it passes for the service `serviceName` and the traffic
source `source`; there is no step after the fifth. -/
def step {σ : Type} (env : Env σ) (serviceName source : String) :
    Nat → World σ → Outcome handlers.Ret × World σ
  | 0 => handlers.createQuota env ("requestcount-" ++ serviceName) "lance-test" quotaDimensions
  | 1 => handlers.createMemQuota env ("handler-" ++ serviceName) "lance-test"
      [("destination", serviceName), ("source", source)]
  | 2 => handlers.createRule env ("quota-" ++ serviceName) "lance-test"
      [{ Handler := ("handler-" ++ serviceName) ++ ".memquota",
         Instances := ["requestcount.quota"] }]
  | 3 => handlers.createQuotaSpec env ("request-count-" ++ serviceName) "lance-test"
      [{ Match := [], Quotas := [{ Quota := "quota-" ++ serviceName, Charge := 1 }] }]
  | 4 => handlers.createQuotaSpecBinding env ("request-count-binding-" ++ serviceName)
      "lance-test" (bindingOf serviceName source)
  | _ => fun w => (.ret ([], none), w)

/-- An upsert succeeded when it returned a nil error. -/
def succeeded : Outcome handlers.Ret → Bool
  | .ret (_, none) => true
  | _ => false

/-- The steps `k`, `k+1`, ... (`n` of them) in sequence, each one fatal: a
step that panics or returns an error ends the run, with status 500 (and the
error text, except for the first step); when no step is left the status is
201. -/
def reconcile {σ : Type} (env : Env σ) (serviceName source : String) :
    Nat → Nat → World σ → Outcome http.Response × World σ
  | _, 0, w => (.ret ⟨201, ""⟩, w)
  | k, n + 1, w =>
    match step env serviceName source k w with
    | (.panic, w1) => (.panic, w1)
    | (.ret (_, some err), w1) => (.ret ⟨500, if k = 0 then "" else err.msg⟩, w1)
    | (.ret (_, none), w1) => reconcile env serviceName source (k + 1) n w1

/-- A list of upserts run in sequence, the first of them counted as `k`,
each one fatal: an upsert that panics or returns an error ends the run, with
status 500 (and the error text, except for the upsert counted 0); after the
last one the status is 201. -/
def runUpserts {σ : Type} :
    Nat → List (World σ → Outcome handlers.Ret × World σ) → World σ →
      Outcome http.Response × World σ
  | _, [], w => (.ret ⟨201, ""⟩, w)
  | k, f :: fs, w =>
    match f w with
    | (.panic, w1) => (.panic, w1)
    | (.ret (_, some err), w1) => (.ret ⟨500, if k = 0 then "" else err.msg⟩, w1)
    | (.ret (_, none), w1) => runUpserts (k + 1) fs w1

/-- The steps `k`, `k+1`, ... (`n` of them) as a list of upserts. -/
def stepsFrom {σ : Type} (env : Env σ) (serviceName source : String) :
    Nat → Nat → List (World σ → Outcome handlers.Ret × World σ)
  | _, 0 => []
  | k, n + 1 => step env serviceName source k :: stepsFrom env serviceName source (k + 1) n

/-- The upsert function `f`, run through the client `c`, builds and writes an
object as `desired` wants it: in every world in which its GET does not fail
with an error other than not-found and answers a status other than 200 or a
payload that decodes to an object, `f` sends its GET and then one write (a
PUT or a POST) to the same resource, namespace and name, whose payload
encodes an object `y` with `desired y`. -/
def Builds {σ α : Type} (f : World σ → Outcome handlers.Ret × World σ)
    (c : rest.RESTClient σ) (cd : Codec α) (resource ns name : String)
    (desired : α → Prop) : Prop :=
  ∀ w : World σ,
    fatal (rest.Do c (getReq resource ns name) w).1.err = false →
    ((rest.Do c (getReq resource ns name) w).1.statusCode ≠ 200 ∨
      ∃ x, cd.Unmarshal (rest.Do c (getReq resource ns name) w).1.body = .ok (some x)) →
    ∃ q y, newCalls w (f w).2 = [getReq resource ns name, q] ∧ isWrite q = true ∧
      q.resource = resource ∧ q.ns = ns ∧ q.name = name ∧
      q.body = some (cd.Marshal y) ∧ desired y

/-- The world in which step `k` starts, when the run starts in `w`. -/
def worldBefore {σ : Type} (env : Env σ) (serviceName source : String) :
    Nat → World σ → World σ
  | 0, w => w
  | k + 1, w => (step env serviceName source k (worldBefore env serviceName source k w)).2

/-- What step `k` returns, when the run starts in `w`. -/
def outcomeOf {σ : Type} (env : Env σ) (serviceName source : String) (k : Nat) (w : World σ) :
    Outcome handlers.Ret :=
  (step env serviceName source k (worldBefore env serviceName source k w)).1

/-- The resource kind of step `k`. -/
def kindOf : Nat → String
  | 0 => "quotas"
  | 1 => "memquotas"
  | 2 => "rules"
  | 3 => "quotaspecs"
  | 4 => "quotaspecbindings"
  | _ => ""

/-- The resource name of step `k` for a service. -/
def nameOf (serviceName : String) : Nat → String
  | 0 => "requestcount-" ++ serviceName
  | 1 => "handler-" ++ serviceName
  | 2 => "quota-" ++ serviceName
  | 3 => "request-count-" ++ serviceName
  | 4 => "request-count-binding-" ++ serviceName
  | _ => ""

/-- What the payload written by step `k` holds: it encodes an object of the
kind of the step whose owned field is the value `HandleRateLimit` built. -/
def BodyOK {σ : Type} (env : Env σ) (serviceName source : String) : Nat → Bytes → Prop
  | 0, b => ∃ y : model.StructQuota,
      b = env.jsonQuota.Marshal y ∧ y.Spec.Dimensions = quotaDimensions
  | 1, b => ∃ y : model.StructMemQuota,
      b = env.jsonMemQuota.Marshal y ∧
      y.Spec.Quotas =
        [paramsQuota ("handler-" ++ serviceName) [("destination", serviceName), ("source", source)]]
  | 2, b => ∃ y : model.StructRule,
      b = env.jsonRule.Marshal y ∧
      y.Spec.Actions =
        [{ Handler := ("handler-" ++ serviceName) ++ ".memquota",
           Instances := ["requestcount.quota"] }]
  | 3, b => ∃ y : model.StructQuotaSpec,
      b = env.jsonQuotaSpec.Marshal y ∧
      y.Spec.Rules =
        [{ Match := [], Quotas := [{ Quota := "quota-" ++ serviceName, Charge := 1 }] }]
  | 4, b => ∃ y : model.StructQuotaSpecBinding,
      b = env.jsonQuotaSpecBinding.Marshal y ∧ y.Spec = bindingOf serviceName source
  | _, _ => False

/-- The request `q` is a write of step `k`: a PUT or POST to the kind and
name of the step, in the namespace `lance-test`, with a payload as in
`BodyOK`. -/
def WriteOf {σ : Type} (env : Env σ) (serviceName source : String) (k : Nat)
    (q : rest.Request) : Prop :=
  isWrite q = true ∧ q.resource = kindOf k ∧ q.ns = "lance-test" ∧
  q.name = nameOf serviceName k ∧ ∃ b, q.body = some b ∧ BodyOK env serviceName source k b

/-- The shape of the requests sent by the steps `k`, `k+1`, ... (`n` of
them) of a run that answers `resp`: each step sends its GET and then its
write; the run goes on only after a write, and it answers 201 exactly when
every step has sent both. -/
def Calls {σ : Type} (env : Env σ) (serviceName source : String) :
    Nat → Nat → Outcome http.Response → List rest.Request → Prop
  | _, 0, resp, t => resp = .ret ⟨201, ""⟩ ∧ t = []
  | k, n + 1, resp, t =>
    (resp ≠ .ret ⟨201, ""⟩ ∧
      (t = [] ∨ t = [getReq (kindOf k) "lance-test" (nameOf serviceName k)] ∨
        ∃ q, t = [getReq (kindOf k) "lance-test" (nameOf serviceName k), q] ∧
          WriteOf env serviceName source k q)) ∨
    (∃ q rest, t = getReq (kindOf k) "lance-test" (nameOf serviceName k) :: q :: rest ∧
      WriteOf env serviceName source k q ∧ Calls env serviceName source (k + 1) n resp rest)

/-- What is compared of a request when only its target matters: whether it
is a write, and its resource kind, namespace and name. -/
def target (q : rest.Request) : Bool × String × String × String :=
  (isWrite q, q.resource, q.ns, q.name)

/-- The targets of the requests of the steps `k`, `k+1`, ... (`n` of them)
when each step sends its GET and its write. -/
def expectedTargets (serviceName : String) : Nat → Nat → List (Bool × String × String × String)
  | _, 0 => []
  | k, n + 1 =>
    (false, kindOf k, "lance-test", nameOf serviceName k) ::
      (true, kindOf k, "lance-test", nameOf serviceName k) ::
        expectedTargets serviceName (k + 1) n

/-- A request as `HandleRateLimit` accepts it: a POST, not declared as JSON,
that names the given service. -/
def requestFor (serviceName : String) : http.Request :=
  { Method := "POST", Body := .ok [],
    Header := fun h => if h = "service_name" then serviceName else "" }

/-- A store that holds, under the name of the Rule of the service `ratings`,
a payload that does not decode, and a log with nothing in it. -/
def brokenRuleWorld : World Store :=
  { remote := fun key => if key = ("rules", "lance-test", "quota-ratings") then some [] else none,
    trace := [] }

/-! ## Vocabulary for the idempotence of `HandleRateLimit` -/

/-- A codec reads back, as an object, what it writes. -/
def RoundTrips {α : Type} (cd : Codec α) : Prop :=
  ∀ x : α, cd.Unmarshal (cd.Marshal x) = .ok (some x)

/-- Each of the five JSON codecs of the environment reads back what it
writes. -/
def EnvRoundTrips {σ : Type} (env : Env σ) : Prop :=
  RoundTrips env.jsonQuota ∧ RoundTrips env.jsonMemQuota ∧ RoundTrips env.jsonRule ∧
  RoundTrips env.jsonQuotaSpec ∧ RoundTrips env.jsonQuotaSpecBinding

/-- Every REST client of the environment is the in-memory store. -/
def StoreBacked (env : Env Store) : Prop :=
  ∀ a b c : String, env.CreateRestClient a b c = .ok memClient

/-- The codec of step `k` decodes the payload, without error, to an
object. -/
def DecodesAt {σ : Type} (env : Env σ) : Nat → Bytes → Prop
  | 0, b => ∃ x, env.jsonQuota.Unmarshal b = .ok (some x)
  | 1, b => ∃ x, env.jsonMemQuota.Unmarshal b = .ok (some x)
  | 2, b => ∃ x, env.jsonRule.Unmarshal b = .ok (some x)
  | 3, b => ∃ x, env.jsonQuotaSpec.Unmarshal b = .ok (some x)
  | 4, b => ∃ x, env.jsonQuotaSpecBinding.Unmarshal b = .ok (some x)
  | _, _ => True

/-- The place in the store of the resource of step `k` for a service. -/
def keyOf (serviceName : String) (k : Nat) : String × String × String :=
  (kindOf k, "lance-test", nameOf serviceName k)

/-- The verb, resource kind and name of a request. -/
def verbTarget (q : rest.Request) : rest.Verb × String × String :=
  (q.verb, q.resource, q.name)

/-- The verbs and targets of the requests of the steps `k`, `k+1`, ... (`n`
of them) when each step sends its GET and then a PUT. -/
def expectedUpdates (serviceName : String) : Nat → Nat → List (rest.Verb × String × String)
  | _, 0 => []
  | k, n + 1 =>
    (.GET, kindOf k, nameOf serviceName k) :: (.PUT, kindOf k, nameOf serviceName k) ::
      expectedUpdates serviceName (k + 1) n

/-! ## Concrete runs -/

/-- The environment of the translation scenario: the in-memory store, and a
request body that parses to the limit map with the single entry
`reviews: 5`. -/
def ratingsEnv : Env Store :=
  memEnv ⟨[("reviews", 5)]⟩

/-- A MemQuota as another writer could have left it: two policies, and
metadata of its own. -/
def oldMemQuota : model.StructMemQuota :=
  { meta := { name := "handler-ratings", ns := "lance-test",
              extra := [("resourceVersion", "41")] },
    Spec := { Quotas :=
                [ { Name := "a", MaxAmount := 7, ValidDuration := time.Second, Overrides := [] },
                  { Name := "b", MaxAmount := 9, ValidDuration := time.Second, Overrides := [] } ],
              extra := [("minDeduplicationDuration", "1s")] } }

/-- A store that already holds the MemQuota of the service `ratings`, and a
log with nothing in it. -/
def seededWorld : World Store :=
  { remote := fun key =>
      if key = ("memquotas", "lance-test", "handler-ratings") then
        some ((wireCodec model.StructMemQuota).Marshal oldMemQuota)
      else none,
    trace := [] }

/-- A store that holds, under the name of the Quota of the service `ratings`,
the payload `null`, and a log with nothing in it. -/
def nullQuotaWorld : World Store :=
  { remote := fun key =>
      if key = ("quotas", "lance-test", "requestcount-ratings") then some [0] else none,
    trace := [] }

/-! ## Each source function is the upsert primitive at its kind -/

theorem createQuota_eq_upsert {σ : Type} (env : Env σ) (c : rest.RESTClient σ)
    (h : env.CreateRestClient "/apis" "config.istio.io" "v1alpha2" = .ok c)
    (name ns : String) (dimensions : StrMap) (w : World σ) :
    handlers.createQuota env name ns dimensions w =
      upsert c env.jsonQuota "quotas" ns name
        (fun q => { q with Spec := { q.Spec with Dimensions := dimensions } })
        (model.Quota name ns dimensions) w := by
  unfold handlers.createQuota upsert
  rw [h]
  dsimp only
  generalize (rest.Do c _ w).1.body = bs
  rcases env.jsonQuota.Unmarshal bs with e | (_ | x) <;> rfl

theorem createMemQuota_eq_upsert {σ : Type} (env : Env σ) (c : rest.RESTClient σ)
    (h : env.CreateRestClient "apis" "config.istio.io" "v1alpha2" = .ok c)
    (name ns : String) (dimensions : StrMap) (w : World σ) :
    handlers.createMemQuota env name ns dimensions w =
      upsert c env.jsonMemQuota "memquotas" ns name
        (fun m => { m with Spec := { m.Spec with Quotas := [paramsQuota name dimensions] } })
        (model.MemQuota name ns [paramsQuota name dimensions]) w := by
  unfold handlers.createMemQuota upsert paramsQuota
  rw [h]
  dsimp only
  generalize (rest.Do c _ w).1.body = bs
  rcases env.jsonMemQuota.Unmarshal bs with e | (_ | x) <;> rfl

theorem createRule_eq_upsert {σ : Type} (env : Env σ) (c : rest.RESTClient σ)
    (h : env.CreateRestClient "/apis" "config.istio.io" "v1alpha2" = .ok c)
    (name ns : String) (actions : List model.StructAction) (w : World σ) :
    handlers.createRule env name ns actions w =
      upsert c env.jsonRule "rules" ns name
        (fun x => { x with Spec := { x.Spec with Actions := actions } })
        (model.Rule name ns actions) w := by
  unfold handlers.createRule upsert
  rw [h]
  dsimp only
  generalize (rest.Do c _ w).1.body = bs
  rcases env.jsonRule.Unmarshal bs with e | (_ | x) <;> rfl

theorem createQuotaSpec_eq_upsert {σ : Type} (env : Env σ) (c : rest.RESTClient σ)
    (h : env.CreateRestClient "/apis" "config.istio.io" "v1alpha2" = .ok c)
    (name ns : String) (rules : List client.QuotaRule) (w : World σ) :
    handlers.createQuotaSpec env name ns rules w =
      upsert c env.jsonQuotaSpec "quotaspecs" ns name
        (fun x => { x with Spec := { x.Spec with Rules := rules } })
        (model.QuotaSpec name ns rules) w := by
  unfold handlers.createQuotaSpec upsert
  rw [h]
  dsimp only
  generalize (rest.Do c _ w).1.body = bs
  rcases env.jsonQuotaSpec.Unmarshal bs with e | (_ | x) <;> rfl

theorem createQuotaSpecBinding_eq_upsert {σ : Type} (env : Env σ) (c : rest.RESTClient σ)
    (h : env.CreateRestClient "/apis" "config.istio.io" "v1alpha2" = .ok c)
    (name ns : String) (binding : client.QuotaSpecBinding) (w : World σ) :
    handlers.createQuotaSpecBinding env name ns binding w =
      upsert c env.jsonQuotaSpecBinding "quotaspecbindings" ns name
        (fun x => { x with Spec := binding })
        (model.QuotaSpecBinding name ns binding) w := by
  unfold handlers.createQuotaSpecBinding upsert
  rw [h]
  dsimp only
  generalize (rest.Do c _ w).1.body = bs
  rcases env.jsonQuotaSpecBinding.Unmarshal bs with e | (_ | x) <;> rfl

theorem fatal_eq_true_iff (err : Option Error) :
    fatal err = true ↔ ∃ e, err = some e ∧ e.notFound = false := by
  cases err with
  | none => simp [fatal, errors.IsNotFound]
  | some e => simp [fatal, errors.IsNotFound]

theorem fatal_eq_false_iff (err : Option Error) :
    fatal err = false ↔ ∀ e, err = some e → e.notFound = true := by
  cases err with
  | none => simp [fatal, errors.IsNotFound]
  | some e => simp [fatal, errors.IsNotFound]

theorem newCalls_append {σ : Type} (w w2 : World σ) (t : List rest.Request)
    (h : w2.trace = w.trace ++ t) : newCalls w w2 = t := by
  simp [newCalls, h]

theorem Do_trace {σ : Type} (c : rest.RESTClient σ) (q : rest.Request) (w : World σ) :
    (rest.Do c q w).2.trace = w.trace ++ [q] := rfl

theorem upsert_abort {σ α : Type} (c : rest.RESTClient σ) (cd : Codec α)
    (resource ns name : String) (mutate : α → α) (fresh : α) (w : World σ)
    (hf : fatal (rest.Do c (getReq resource ns name) w).1.err = true) :
    upsert c cd resource ns name mutate fresh w =
      (.ret ([], (rest.Do c (getReq resource ns name) w).1.err),
        (rest.Do c (getReq resource ns name) w).2) := by
  unfold fatal getReq at hf
  unfold upsert getReq
  simp only [hf, if_true]

theorem upsert_decode_error {σ α : Type} (c : rest.RESTClient σ) (cd : Codec α)
    (resource ns name : String) (mutate : α → α) (fresh : α) (w : World σ) (e : Error)
    (hf : fatal (rest.Do c (getReq resource ns name) w).1.err = false)
    (hs : (rest.Do c (getReq resource ns name) w).1.statusCode = 200)
    (hd : cd.Unmarshal (rest.Do c (getReq resource ns name) w).1.body = .error e) :
    upsert c cd resource ns name mutate fresh w =
      (.ret ([], some e), (rest.Do c (getReq resource ns name) w).2) := by
  unfold fatal getReq at hf
  unfold getReq at hs hd
  unfold upsert getReq
  simp only [hf, hs, hd, if_true]
  rfl

theorem upsert_nil {σ α : Type} (c : rest.RESTClient σ) (cd : Codec α)
    (resource ns name : String) (mutate : α → α) (fresh : α) (w : World σ)
    (hf : fatal (rest.Do c (getReq resource ns name) w).1.err = false)
    (hs : (rest.Do c (getReq resource ns name) w).1.statusCode = 200)
    (hd : cd.Unmarshal (rest.Do c (getReq resource ns name) w).1.body = .ok none) :
    upsert c cd resource ns name mutate fresh w =
      (.panic, (rest.Do c (getReq resource ns name) w).2) := by
  unfold fatal getReq at hf
  unfold getReq at hs hd
  unfold upsert getReq
  simp only [hf, hs, hd, if_true]
  rfl

theorem upsert_update {σ α : Type} (c : rest.RESTClient σ) (cd : Codec α)
    (resource ns name : String) (mutate : α → α) (fresh : α) (w : World σ) (x : α)
    (hf : fatal (rest.Do c (getReq resource ns name) w).1.err = false)
    (hs : (rest.Do c (getReq resource ns name) w).1.statusCode = 200)
    (hd : cd.Unmarshal (rest.Do c (getReq resource ns name) w).1.body = .ok (some x)) :
    upsert c cd resource ns name mutate fresh w =
      (.ret ((rest.Do c ⟨.PUT, resource, ns, name, some (cd.Marshal (mutate x))⟩
                (rest.Do c (getReq resource ns name) w).2).1.body,
             (rest.Do c ⟨.PUT, resource, ns, name, some (cd.Marshal (mutate x))⟩
                (rest.Do c (getReq resource ns name) w).2).1.err),
        (rest.Do c ⟨.PUT, resource, ns, name, some (cd.Marshal (mutate x))⟩
          (rest.Do c (getReq resource ns name) w).2).2) := by
  unfold fatal getReq at hf
  unfold getReq at hs hd
  unfold upsert getReq
  simp only [hf, hs, hd, if_true]
  rfl

theorem upsert_create {σ α : Type} (c : rest.RESTClient σ) (cd : Codec α)
    (resource ns name : String) (mutate : α → α) (fresh : α) (w : World σ)
    (hf : fatal (rest.Do c (getReq resource ns name) w).1.err = false)
    (hs : (rest.Do c (getReq resource ns name) w).1.statusCode ≠ 200) :
    upsert c cd resource ns name mutate fresh w =
      (.ret ((rest.Do c ⟨.POST, resource, ns, name, some (cd.Marshal fresh)⟩
                (rest.Do c (getReq resource ns name) w).2).1.body,
             (rest.Do c ⟨.POST, resource, ns, name, some (cd.Marshal fresh)⟩
                (rest.Do c (getReq resource ns name) w).2).1.err),
        (rest.Do c ⟨.POST, resource, ns, name, some (cd.Marshal fresh)⟩
          (rest.Do c (getReq resource ns name) w).2).2) := by
  unfold fatal getReq at hf
  unfold getReq at hs
  unfold upsert getReq
  simp only [hf, hs, if_false]
  rfl

/-! ## The contract of the upsert functions -/

theorem upsert_contract_generic {σ α : Type} (c : rest.RESTClient σ) (cd : Codec α)
    (resource ns name : String) (mutate : α → α) (fresh : α) :
    UpsertContract (upsert c cd resource ns name mutate fresh) c cd resource ns name
      (cd.Marshal fresh) := by
  intro w
  refine ⟨?_, ?_, ?_⟩
  · intro e he hn
    have hf : fatal (rest.Do c (getReq resource ns name) w).1.err = true :=
      (fatal_eq_true_iff _).2 ⟨e, he, hn⟩
    rw [upsert_abort c cd resource ns name mutate fresh w hf, he]
    exact ⟨rfl, rfl⟩
  · intro hnf hs
    have hf : fatal (rest.Do c (getReq resource ns name) w).1.err = false :=
      (fatal_eq_false_iff _).2 hnf
    refine ⟨?_, ?_⟩
    · intro e he
      rw [upsert_decode_error c cd resource ns name mutate fresh w e hf hs he]
      exact ⟨rfl, rfl⟩
    · intro x hx
      refine ⟨cd.Marshal (mutate x), ?_⟩
      rw [upsert_update c cd resource ns name mutate fresh w x hf hs hx]
      refine ⟨rfl, ?_⟩
      simp [Do_trace]
  · intro hnf hs
    have hf : fatal (rest.Do c (getReq resource ns name) w).1.err = false :=
      (fatal_eq_false_iff _).2 hnf
    rw [upsert_create c cd resource ns name mutate fresh w hf hs]
    refine ⟨rfl, ?_⟩
    simp [Do_trace]

/-- Away from a payload that decodes to no object, each of the five upsert
functions, run through its REST client, keeps the get-then-create-or-replace
contract. -/
theorem upsert_contract_on_objects {σ : Type} (env : Env σ) (c c2 : rest.RESTClient σ)
    (h : env.CreateRestClient "/apis" "config.istio.io" "v1alpha2" = .ok c)
    (h2 : env.CreateRestClient "apis" "config.istio.io" "v1alpha2" = .ok c2)
    (name ns : String) (dimensions : StrMap) (actions : List model.StructAction)
    (rules : List client.QuotaRule) (binding : client.QuotaSpecBinding) :
    UpsertContract (handlers.createQuota env name ns dimensions) c env.jsonQuota "quotas" ns
      name (env.jsonQuota.Marshal (model.Quota name ns dimensions)) ∧
    UpsertContract (handlers.createMemQuota env name ns dimensions) c2 env.jsonMemQuota
      "memquotas" ns name
      (env.jsonMemQuota.Marshal (model.MemQuota name ns [paramsQuota name dimensions])) ∧
    UpsertContract (handlers.createRule env name ns actions) c env.jsonRule "rules" ns name
      (env.jsonRule.Marshal (model.Rule name ns actions)) ∧
    UpsertContract (handlers.createQuotaSpec env name ns rules) c env.jsonQuotaSpec
      "quotaspecs" ns name (env.jsonQuotaSpec.Marshal (model.QuotaSpec name ns rules)) ∧
    UpsertContract (handlers.createQuotaSpecBinding env name ns binding) c
      env.jsonQuotaSpecBinding "quotaspecbindings" ns name
      (env.jsonQuotaSpecBinding.Marshal (model.QuotaSpecBinding name ns binding)) := by
  refine ⟨?_, ?_, ?_, ?_, ?_⟩
  · have e : handlers.createQuota env name ns dimensions = upsert c env.jsonQuota "quotas" ns name
        (fun q => { q with Spec := { q.Spec with Dimensions := dimensions } })
        (model.Quota name ns dimensions) :=
      funext (createQuota_eq_upsert env c h name ns dimensions)
    rw [e]
    exact upsert_contract_generic _ _ _ _ _ _ _
  · have e : handlers.createMemQuota env name ns dimensions =
        upsert c2 env.jsonMemQuota "memquotas" ns name
        (fun m => { m with Spec := { m.Spec with Quotas := [paramsQuota name dimensions] } })
        (model.MemQuota name ns [paramsQuota name dimensions]) :=
      funext (createMemQuota_eq_upsert env c2 h2 name ns dimensions)
    rw [e]
    exact upsert_contract_generic _ _ _ _ _ _ _
  · have e : handlers.createRule env name ns actions = upsert c env.jsonRule "rules" ns name
        (fun x => { x with Spec := { x.Spec with Actions := actions } })
        (model.Rule name ns actions) :=
      funext (createRule_eq_upsert env c h name ns actions)
    rw [e]
    exact upsert_contract_generic _ _ _ _ _ _ _
  · have e : handlers.createQuotaSpec env name ns rules =
        upsert c env.jsonQuotaSpec "quotaspecs" ns name
        (fun x => { x with Spec := { x.Spec with Rules := rules } })
        (model.QuotaSpec name ns rules) :=
      funext (createQuotaSpec_eq_upsert env c h name ns rules)
    rw [e]
    exact upsert_contract_generic _ _ _ _ _ _ _
  · have e : handlers.createQuotaSpecBinding env name ns binding =
        upsert c env.jsonQuotaSpecBinding "quotaspecbindings" ns name
        (fun x => { x with Spec := binding })
        (model.QuotaSpecBinding name ns binding) :=
      funext (createQuotaSpecBinding_eq_upsert env c h name ns binding)
    rw [e]
    exact upsert_contract_generic _ _ _ _ _ _ _

/-! ## The calls of one upsert -/

theorem upsert_calls {σ α : Type} (c : rest.RESTClient σ) (cd : Codec α)
    (resource ns name : String) (mutate : α → α) (fresh : α) (w : World σ) :
    (fatal (rest.Do c (getReq resource ns name) w).1.err = true ∧
      newCalls w (upsert c cd resource ns name mutate fresh w).2 = [getReq resource ns name]) ∨
    (fatal (rest.Do c (getReq resource ns name) w).1.err = false ∧
      (rest.Do c (getReq resource ns name) w).1.statusCode = 200 ∧
      (∃ e, cd.Unmarshal (rest.Do c (getReq resource ns name) w).1.body = .error e) ∧
      newCalls w (upsert c cd resource ns name mutate fresh w).2 = [getReq resource ns name]) ∨
    (fatal (rest.Do c (getReq resource ns name) w).1.err = false ∧
      (rest.Do c (getReq resource ns name) w).1.statusCode = 200 ∧
      cd.Unmarshal (rest.Do c (getReq resource ns name) w).1.body = .ok none ∧
      newCalls w (upsert c cd resource ns name mutate fresh w).2 = [getReq resource ns name]) ∨
    (fatal (rest.Do c (getReq resource ns name) w).1.err = false ∧
      (rest.Do c (getReq resource ns name) w).1.statusCode = 200 ∧
      ∃ x, cd.Unmarshal (rest.Do c (getReq resource ns name) w).1.body = .ok (some x) ∧
        newCalls w (upsert c cd resource ns name mutate fresh w).2 =
          [getReq resource ns name, ⟨.PUT, resource, ns, name, some (cd.Marshal (mutate x))⟩]) ∨
    (fatal (rest.Do c (getReq resource ns name) w).1.err = false ∧
      (rest.Do c (getReq resource ns name) w).1.statusCode ≠ 200 ∧
      newCalls w (upsert c cd resource ns name mutate fresh w).2 =
        [getReq resource ns name, ⟨.POST, resource, ns, name, some (cd.Marshal fresh)⟩]) := by
  cases hf : fatal (rest.Do c (getReq resource ns name) w).1.err with
  | true =>
    left
    refine ⟨rfl, ?_⟩
    rw [upsert_abort c cd resource ns name mutate fresh w hf]
    exact newCalls_append _ _ _ rfl
  | false =>
    right
    by_cases hs : (rest.Do c (getReq resource ns name) w).1.statusCode = 200
    · rcases hd : cd.Unmarshal (rest.Do c (getReq resource ns name) w).1.body with e | (_ | x)
      · left
        refine ⟨rfl, hs, ⟨e, rfl⟩, ?_⟩
        rw [upsert_decode_error c cd resource ns name mutate fresh w e hf hs hd]
        exact newCalls_append _ _ _ rfl
      · right; left
        refine ⟨rfl, hs, rfl, ?_⟩
        rw [upsert_nil c cd resource ns name mutate fresh w hf hs hd]
        exact newCalls_append _ _ _ rfl
      · right; right; left
        refine ⟨rfl, hs, x, rfl, ?_⟩
        rw [upsert_update c cd resource ns name mutate fresh w x hf hs hd]
        exact newCalls_append _ _ _ (by simp [Do_trace])
    · right; right; right
      refine ⟨rfl, hs, ?_⟩
      rw [upsert_create c cd resource ns name mutate fresh w hf hs]
      exact newCalls_append _ _ _ (by simp [Do_trace])

theorem upsert_one_read {σ α : Type} (c : rest.RESTClient σ) (cd : Codec α)
    (resource ns name : String) (mutate : α → α) (fresh : α) :
    OneReadAtMostOneWrite (upsert c cd resource ns name mutate fresh) c cd resource ns
      name := by
  intro w
  rcases upsert_calls c cd resource ns name mutate fresh w with
    ⟨hf, ht⟩ | ⟨hf, hs, ⟨e, hd⟩, ht⟩ | ⟨hf, hs, hd, ht⟩ | ⟨hf, hs, x, hd, ht⟩ | ⟨hf, hs, ht⟩
  · rw [ht]
    refine ⟨by simp [reads, isRead, getReq], fun _ => by simp [writes, isWrite, getReq], ?_⟩
    rintro ⟨hf2, _⟩
    rw [hf] at hf2
    exact absurd hf2 (by decide)
  · rw [ht]
    refine ⟨by simp [reads, isRead, getReq], fun _ => by simp [writes, isWrite, getReq], ?_⟩
    rintro ⟨_, hs2 | ⟨x, hx⟩⟩
    · exact absurd hs hs2
    · rw [hd] at hx
      cases hx
  · rw [ht]
    refine ⟨by simp [reads, isRead, getReq], fun _ => by simp [writes, isWrite, getReq], ?_⟩
    rintro ⟨_, hs2 | ⟨x, hx⟩⟩
    · exact absurd hs hs2
    · rw [hd] at hx
      cases hx
  · rw [ht]
    refine ⟨by simp [reads, isRead, getReq], ?_, fun _ => by simp [writes, isWrite, getReq]⟩
    rintro (hf2 | ⟨_, e, he⟩)
    · rw [hf] at hf2
      exact absurd hf2 (by decide)
    · rw [hd] at he
      cases he
  · rw [ht]
    refine ⟨by simp [reads, isRead, getReq], ?_, fun _ => by simp [writes, isWrite, getReq]⟩
    rintro (hf2 | ⟨hs2, _⟩)
    · rw [hf] at hf2
      exact absurd hf2 (by decide)
    · exact absurd hs2 hs

theorem upsert_frame {σ α : Type} (c : rest.RESTClient σ) (cd : Codec α)
    (resource ns name : String) (mutate : α → α) (fresh : α) :
    UpdateFrame (upsert c cd resource ns name mutate fresh) c cd resource ns name
      (fun x y => y = mutate x) := by
  intro w x hs hd
  rcases upsert_calls c cd resource ns name mutate fresh w with
    ⟨hf, ht⟩ | ⟨hf, _, ⟨e, hd2⟩, ht⟩ | ⟨hf, _, hd2, ht⟩ | ⟨hf, _, x2, hd2, ht⟩ | ⟨hf, hs2, ht⟩
  · rw [ht]
    refine ⟨?_, ?_⟩
    · intro q hq hw
      simp only [List.mem_singleton] at hq
      subst hq
      simp [isWrite, getReq] at hw
    · intro hf2
      rw [hf] at hf2
      exact absurd hf2 (by decide)
  · rw [hd] at hd2
    cases hd2
  · rw [hd] at hd2
    cases hd2
  · rw [hd] at hd2
    cases hd2
    rw [ht]
    refine ⟨?_, ?_⟩
    · intro q hq hw
      simp only [List.mem_cons, List.mem_singleton, List.not_mem_nil, or_false] at hq
      rcases hq with hq | hq
      · subst hq
        simp [isWrite, getReq] at hw
      · exact ⟨mutate x, hq, rfl⟩
    · intro _
      exact ⟨mutate x, rfl, rfl⟩
  · exact absurd hs hs2

theorem upsert_builds {σ α : Type} (c : rest.RESTClient σ) (cd : Codec α)
    (resource ns name : String) (mutate : α → α) (fresh : α) (desired : α → Prop)
    (hfresh : desired fresh) (hmut : ∀ x, desired (mutate x)) :
    Builds (upsert c cd resource ns name mutate fresh) c cd resource ns name desired := by
  intro w hf hcase
  rcases upsert_calls c cd resource ns name mutate fresh w with
    ⟨hf2, _⟩ | ⟨_, hs, ⟨e, hd⟩, _⟩ | ⟨_, hs, hd, _⟩ | ⟨_, _, x, _, ht⟩ | ⟨_, _, ht⟩
  · rw [hf] at hf2
    exact absurd hf2 (by decide)
  · rcases hcase with hs2 | ⟨x, hx⟩
    · exact absurd hs hs2
    · rw [hd] at hx
      cases hx
  · rcases hcase with hs2 | ⟨x, hx⟩
    · exact absurd hs hs2
    · rw [hd] at hx
      cases hx
  · exact ⟨_, mutate x, ht, rfl, rfl, rfl, rfl, rfl, hmut x⟩
  · exact ⟨_, fresh, ht, rfl, rfl, rfl, rfl, rfl, hfresh⟩

theorem UpdateFrame.mono {σ α : Type} {f : World σ → Outcome handlers.Ret × World σ}
    {c : rest.RESTClient σ} {cd : Codec α} {resource ns name : String}
    {owned owned2 : α → α → Prop} (h : UpdateFrame f c cd resource ns name owned)
    (himp : ∀ x y, owned x y → owned2 x y) :
    UpdateFrame f c cd resource ns name owned2 := by
  intro w x hs hd
  obtain ⟨h1, h2⟩ := h w x hs hd
  refine ⟨?_, ?_⟩
  · intro q hq hw
    obtain ⟨y, hy, ho⟩ := h1 q hq hw
    exact ⟨y, hy, himp x y ho⟩
  · intro hf
    obtain ⟨y, hy, ho⟩ := h2 hf
    exact ⟨y, hy, himp x y ho⟩

/-- C8: on the update path (GET status 200 with a payload that decodes to an
object) the object each upsert function PUTs is the decoded object with only the owned
field replaced by the desired value - `Spec.Dimensions` of a Quota,
`Spec.Quotas` of a MemQuota, `Spec.Actions` of a Rule, `Spec.Rules` of a
QuotaSpec, `Spec` of a QuotaSpecBinding - and every other field as decoded;
the new `Spec.Quotas` of a MemQuota is the one-element list of the fresh
policy, whatever the fetched object held. -/
theorem update_path_frame {σ : Type} (env : Env σ) (c c2 : rest.RESTClient σ)
    (h : env.CreateRestClient "/apis" "config.istio.io" "v1alpha2" = .ok c)
    (h2 : env.CreateRestClient "apis" "config.istio.io" "v1alpha2" = .ok c2)
    (name ns : String) (dimensions : StrMap) (actions : List model.StructAction)
    (rules : List client.QuotaRule) (binding : client.QuotaSpecBinding) :
    UpdateFrame (handlers.createQuota env name ns dimensions) c env.jsonQuota "quotas" ns name
      (fun x y => y.meta = x.meta ∧ y.Spec.extra = x.Spec.extra ∧
        y.Spec.Dimensions = dimensions) ∧
    UpdateFrame (handlers.createMemQuota env name ns dimensions) c2 env.jsonMemQuota
      "memquotas" ns name
      (fun x y => y.meta = x.meta ∧ y.Spec.extra = x.Spec.extra ∧
        y.Spec.Quotas = [paramsQuota name dimensions] ∧ y.Spec.Quotas.length = 1) ∧
    UpdateFrame (handlers.createRule env name ns actions) c env.jsonRule "rules" ns name
      (fun x y => y.meta = x.meta ∧ y.Spec.extra = x.Spec.extra ∧ y.Spec.Actions = actions) ∧
    UpdateFrame (handlers.createQuotaSpec env name ns rules) c env.jsonQuotaSpec
      "quotaspecs" ns name
      (fun x y => y.meta = x.meta ∧ y.Spec.extra = x.Spec.extra ∧ y.Spec.Rules = rules) ∧
    UpdateFrame (handlers.createQuotaSpecBinding env name ns binding) c
      env.jsonQuotaSpecBinding "quotaspecbindings" ns name
      (fun x y => y.meta = x.meta ∧ y.Spec = binding) := by
  refine ⟨?_, ?_, ?_, ?_, ?_⟩
  · have e : handlers.createQuota env name ns dimensions = upsert c env.jsonQuota "quotas" ns name
        (fun q => { q with Spec := { q.Spec with Dimensions := dimensions } })
        (model.Quota name ns dimensions) :=
      funext (createQuota_eq_upsert env c h name ns dimensions)
    rw [e]
    refine (upsert_frame _ _ _ _ _ _ _).mono ?_
    rintro x y rfl
    exact ⟨rfl, rfl, rfl⟩
  · have e : handlers.createMemQuota env name ns dimensions =
        upsert c2 env.jsonMemQuota "memquotas" ns name
        (fun m => { m with Spec := { m.Spec with Quotas := [paramsQuota name dimensions] } })
        (model.MemQuota name ns [paramsQuota name dimensions]) :=
      funext (createMemQuota_eq_upsert env c2 h2 name ns dimensions)
    rw [e]
    refine (upsert_frame _ _ _ _ _ _ _).mono ?_
    rintro x y rfl
    exact ⟨rfl, rfl, rfl, rfl⟩
  · have e : handlers.createRule env name ns actions = upsert c env.jsonRule "rules" ns name
        (fun x => { x with Spec := { x.Spec with Actions := actions } })
        (model.Rule name ns actions) :=
      funext (createRule_eq_upsert env c h name ns actions)
    rw [e]
    refine (upsert_frame _ _ _ _ _ _ _).mono ?_
    rintro x y rfl
    exact ⟨rfl, rfl, rfl⟩
  · have e : handlers.createQuotaSpec env name ns rules =
        upsert c env.jsonQuotaSpec "quotaspecs" ns name
        (fun x => { x with Spec := { x.Spec with Rules := rules } })
        (model.QuotaSpec name ns rules) :=
      funext (createQuotaSpec_eq_upsert env c h name ns rules)
    rw [e]
    refine (upsert_frame _ _ _ _ _ _ _).mono ?_
    rintro x y rfl
    exact ⟨rfl, rfl, rfl⟩
  · have e : handlers.createQuotaSpecBinding env name ns binding =
        upsert c env.jsonQuotaSpecBinding "quotaspecbindings" ns name
        (fun x => { x with Spec := binding })
        (model.QuotaSpecBinding name ns binding) :=
      funext (createQuotaSpecBinding_eq_upsert env c h name ns binding)
    rw [e]
    refine (upsert_frame _ _ _ _ _ _ _).mono ?_
    rintro x y rfl
    exact ⟨rfl, rfl⟩

/-- C9, as stated, fails: through a client whose GET ends in a transport
error, `createQuota` sends its GET and no write at all. -/
theorem createQuota_no_write_on_get_error :
    ¬ OneReadOneWrite
        (handlers.createQuota refusingEnv "requestcount-checkout" "lance-test" []) := by
  intro hall
  have hw := (hall { remote := (), trace := [] }).2
  have e := createQuota_eq_upsert refusingEnv refusingClient rfl
    "requestcount-checkout" "lance-test" [] { remote := (), trace := [] }
  rw [e, upsert_abort refusingClient refusingEnv.jsonQuota "quotas" "lance-test"
    "requestcount-checkout" _ _ { remote := (), trace := [] } rfl] at hw
  simp [writes, newCalls, rest.Do, isWrite, getReq] at hw

/-- C9, amended: each of the five upsert functions, once its REST client is
there, sends exactly one GET; it sends no write when the GET failed with an
error other than not-found or answered status 200 with a payload that fails
to decode; and it sends exactly one write (PUT or POST) when the GET did not
fail so and answered a status other than 200 or a payload that decodes to an
object. -/
theorem upsert_functions_calls {σ : Type} (env : Env σ) (c c2 : rest.RESTClient σ)
    (h : env.CreateRestClient "/apis" "config.istio.io" "v1alpha2" = .ok c)
    (h2 : env.CreateRestClient "apis" "config.istio.io" "v1alpha2" = .ok c2)
    (name ns : String) (dimensions : StrMap) (actions : List model.StructAction)
    (rules : List client.QuotaRule) (binding : client.QuotaSpecBinding) :
    OneReadAtMostOneWrite (handlers.createQuota env name ns dimensions) c env.jsonQuota
      "quotas" ns name ∧
    OneReadAtMostOneWrite (handlers.createMemQuota env name ns dimensions) c2 env.jsonMemQuota
      "memquotas" ns name ∧
    OneReadAtMostOneWrite (handlers.createRule env name ns actions) c env.jsonRule "rules" ns
      name ∧
    OneReadAtMostOneWrite (handlers.createQuotaSpec env name ns rules) c env.jsonQuotaSpec
      "quotaspecs" ns name ∧
    OneReadAtMostOneWrite (handlers.createQuotaSpecBinding env name ns binding) c
      env.jsonQuotaSpecBinding "quotaspecbindings" ns name := by
  refine ⟨?_, ?_, ?_, ?_, ?_⟩
  · have e : handlers.createQuota env name ns dimensions = upsert c env.jsonQuota "quotas" ns name
        (fun q => { q with Spec := { q.Spec with Dimensions := dimensions } })
        (model.Quota name ns dimensions) :=
      funext (createQuota_eq_upsert env c h name ns dimensions)
    rw [e]
    exact upsert_one_read _ _ _ _ _ _ _
  · have e : handlers.createMemQuota env name ns dimensions =
        upsert c2 env.jsonMemQuota "memquotas" ns name
        (fun m => { m with Spec := { m.Spec with Quotas := [paramsQuota name dimensions] } })
        (model.MemQuota name ns [paramsQuota name dimensions]) :=
      funext (createMemQuota_eq_upsert env c2 h2 name ns dimensions)
    rw [e]
    exact upsert_one_read _ _ _ _ _ _ _
  · have e : handlers.createRule env name ns actions = upsert c env.jsonRule "rules" ns name
        (fun x => { x with Spec := { x.Spec with Actions := actions } })
        (model.Rule name ns actions) :=
      funext (createRule_eq_upsert env c h name ns actions)
    rw [e]
    exact upsert_one_read _ _ _ _ _ _ _
  · have e : handlers.createQuotaSpec env name ns rules =
        upsert c env.jsonQuotaSpec "quotaspecs" ns name
        (fun x => { x with Spec := { x.Spec with Rules := rules } })
        (model.QuotaSpec name ns rules) :=
      funext (createQuotaSpec_eq_upsert env c h name ns rules)
    rw [e]
    exact upsert_one_read _ _ _ _ _ _ _
  · have e : handlers.createQuotaSpecBinding env name ns binding =
        upsert c env.jsonQuotaSpecBinding "quotaspecbindings" ns name
        (fun x => { x with Spec := binding })
        (model.QuotaSpecBinding name ns binding) :=
      funext (createQuotaSpecBinding_eq_upsert env c h name ns binding)
    rw [e]
    exact upsert_one_read _ _ _ _ _ _ _

/-! ## `HandleRateLimit` as a sequence of five upserts -/

theorem firstKey_nil : handlers.firstKey [] "" 0 = "" := rfl

theorem firstKey_cons (k : String) (v : Int) (rest : List (String × Int)) :
    handlers.firstKey ((k, v) :: rest) "" 0 = k := by
  simp [handlers.firstKey]

theorem HandleRateLimit_eq_reconcile {σ : Type} (env : Env σ) (r : http.Request)
    (serviceName : String) (limit : List (String × Int))
    (ha : Accepted env r serviceName limit) (w : World σ) :
    handlers.HandleRateLimit env r w =
      reconcile env serviceName (handlers.firstKey limit "" 0) 0 5 w := by
  obtain ⟨hm, ⟨bs, hb, hy⟩, hc, hs, hne⟩ := ha
  subst hs
  unfold handlers.HandleRateLimit
  simp only [hm, hb, hy, hc, hne, ne_eq, not_true_eq_false, if_false]
  simp only [reconcile, step, quotaDimensions, bindingOf]
  rcases h0 : handlers.createQuota env ("requestcount-" ++ r.Header "service_name") "lance-test"
      quotaDimensions w with ⟨o0, w1⟩
  simp only [quotaDimensions] at h0
  simp only [h0]
  rcases o0 with ⟨b0, _ | e0⟩ | _
  rotate_left
  · simp
  · rfl
  simp only
  rcases h1 : handlers.createMemQuota env ("handler-" ++ r.Header "service_name") "lance-test"
      [("destination", r.Header "service_name"), ("source", handlers.firstKey limit "" 0)] w1
    with ⟨o1, w2⟩
  rcases o1 with ⟨b1, _ | e1⟩ | _
  rotate_left
  · simp
  · rfl
  simp only
  rcases h2 : handlers.createRule env ("quota-" ++ r.Header "service_name") "lance-test"
      [{ Handler := ("handler-" ++ r.Header "service_name") ++ ".memquota",
         Instances := ["requestcount.quota"] }] w2
    with ⟨o2, w3⟩
  rcases o2 with ⟨b2, _ | e2⟩ | _
  rotate_left
  · simp
  · rfl
  simp only
  rcases h3 : handlers.createQuotaSpec env ("request-count-" ++ r.Header "service_name")
      "lance-test"
      [{ Match := [], Quotas := [{ Quota := "quota-" ++ r.Header "service_name", Charge := 1 }] }]
      w3
    with ⟨o3, w4⟩
  rcases o3 with ⟨b3, _ | e3⟩ | _
  rotate_left
  · simp
  · rfl
  simp only
  rcases h4 : handlers.createQuotaSpecBinding env
      ("request-count-binding-" ++ r.Header "service_name") "lance-test"
      (bindingOf (r.Header "service_name") (handlers.firstKey limit "" 0)) w4
    with ⟨o4, w5⟩
  simp only [bindingOf] at h4
  simp only [h4]
  rcases o4 with ⟨b4, _ | e4⟩ | _
  rotate_left
  · simp
  · rfl
  rfl

theorem upsert_run {σ α : Type} (c : rest.RESTClient σ) (cd : Codec α)
    (resource ns name : String) (mutate : α → α) (fresh : α) (w : World σ) :
    ∃ t, (upsert c cd resource ns name mutate fresh w).2.trace = w.trace ++ t ∧
      ((t = [getReq resource ns name] ∧
          succeeded (upsert c cd resource ns name mutate fresh w).1 = false) ∨
        ∃ verb y, t = [getReq resource ns name, ⟨verb, resource, ns, name, some (cd.Marshal y)⟩] ∧
          ((verb = .PUT ∧ ∃ x, y = mutate x) ∨ (verb = .POST ∧ y = fresh))) := by
  cases hf : fatal (rest.Do c (getReq resource ns name) w).1.err with
  | true =>
    obtain ⟨e, he, _⟩ := (fatal_eq_true_iff _).1 hf
    rw [upsert_abort c cd resource ns name mutate fresh w hf, he]
    exact ⟨_, rfl, Or.inl ⟨rfl, rfl⟩⟩
  | false =>
    by_cases hs : (rest.Do c (getReq resource ns name) w).1.statusCode = 200
    · rcases hd : cd.Unmarshal (rest.Do c (getReq resource ns name) w).1.body with e | (_ | x)
      · rw [upsert_decode_error c cd resource ns name mutate fresh w e hf hs hd]
        exact ⟨_, rfl, Or.inl ⟨rfl, rfl⟩⟩
      · rw [upsert_nil c cd resource ns name mutate fresh w hf hs hd]
        exact ⟨_, rfl, Or.inl ⟨rfl, rfl⟩⟩
      · rw [upsert_update c cd resource ns name mutate fresh w x hf hs hd]
        exact ⟨_, by simp [Do_trace], Or.inr ⟨.PUT, mutate x, rfl, Or.inl ⟨rfl, x, rfl⟩⟩⟩
    · rw [upsert_create c cd resource ns name mutate fresh w hf hs]
      exact ⟨_, by simp [Do_trace], Or.inr ⟨.POST, fresh, rfl, Or.inr ⟨rfl, rfl⟩⟩⟩

theorem step_run {σ : Type} (env : Env σ) (s src : String) (k : Nat) (hk : k < 5)
    (w : World σ) :
    ∃ t, (step env s src k w).2.trace = w.trace ++ t ∧
      ((succeeded (step env s src k w).1 = false ∧
          (t = [] ∨ t = [getReq (kindOf k) "lance-test" (nameOf s k)])) ∨
        ∃ q, t = [getReq (kindOf k) "lance-test" (nameOf s k), q] ∧ WriteOf env s src k q) := by
  interval_cases k
  · cases hc : env.CreateRestClient "/apis" "config.istio.io" "v1alpha2" with
    | error e =>
      refine ⟨[], ?_, Or.inl ⟨?_, Or.inl rfl⟩⟩ <;> simp [step, handlers.createQuota, hc, succeeded]
    | ok c =>
      simp only [step, createQuota_eq_upsert env c hc, kindOf, nameOf]
      obtain ⟨t, ht, h⟩ := upsert_run c env.jsonQuota "quotas" "lance-test" ("requestcount-" ++ s)
        (fun q => { q with Spec := { q.Spec with Dimensions := quotaDimensions } })
        (model.Quota ("requestcount-" ++ s) "lance-test" quotaDimensions) w
      refine ⟨t, ht, ?_⟩
      rcases h with ⟨h1, h2⟩ | ⟨verb, y, h1, h2⟩
      · exact Or.inl ⟨h2, Or.inr h1⟩
      · refine Or.inr ⟨_, h1, ?_, rfl, rfl, rfl, _, rfl, y, rfl, ?_⟩
        · rcases h2 with ⟨hv, _⟩ | ⟨hv, _⟩ <;> simp [isWrite, hv]
        · rcases h2 with ⟨_, x, hx⟩ | ⟨_, hx⟩ <;> (rw [hx]; try rfl)
  · cases hc : env.CreateRestClient "apis" "config.istio.io" "v1alpha2" with
    | error e =>
      refine ⟨[], ?_, Or.inl ⟨?_, Or.inl rfl⟩⟩ <;>
        simp [step, handlers.createMemQuota, hc, succeeded]
    | ok c =>
      simp only [step, createMemQuota_eq_upsert env c hc, kindOf, nameOf]
      obtain ⟨t, ht, h⟩ := upsert_run c env.jsonMemQuota "memquotas" "lance-test" ("handler-" ++ s)
        (fun m => { m with Spec := { m.Spec with Quotas :=
          [paramsQuota ("handler-" ++ s) [("destination", s), ("source", src)]] } })
        (model.MemQuota ("handler-" ++ s) "lance-test"
          [paramsQuota ("handler-" ++ s) [("destination", s), ("source", src)]]) w
      refine ⟨t, ht, ?_⟩
      rcases h with ⟨h1, h2⟩ | ⟨verb, y, h1, h2⟩
      · exact Or.inl ⟨h2, Or.inr h1⟩
      · refine Or.inr ⟨_, h1, ?_, rfl, rfl, rfl, _, rfl, y, rfl, ?_⟩
        · rcases h2 with ⟨hv, _⟩ | ⟨hv, _⟩ <;> simp [isWrite, hv]
        · rcases h2 with ⟨_, x, hx⟩ | ⟨_, hx⟩ <;> (rw [hx]; try rfl)
  · cases hc : env.CreateRestClient "/apis" "config.istio.io" "v1alpha2" with
    | error e =>
      refine ⟨[], ?_, Or.inl ⟨?_, Or.inl rfl⟩⟩ <;> simp [step, handlers.createRule, hc, succeeded]
    | ok c =>
      simp only [step, createRule_eq_upsert env c hc, kindOf, nameOf]
      obtain ⟨t, ht, h⟩ := upsert_run c env.jsonRule "rules" "lance-test" ("quota-" ++ s)
        (fun x => { x with Spec := { x.Spec with Actions :=
          [{ Handler := ("handler-" ++ s) ++ ".memquota", Instances := ["requestcount.quota"] }] } })
        (model.Rule ("quota-" ++ s) "lance-test"
          [{ Handler := ("handler-" ++ s) ++ ".memquota", Instances := ["requestcount.quota"] }]) w
      refine ⟨t, ht, ?_⟩
      rcases h with ⟨h1, h2⟩ | ⟨verb, y, h1, h2⟩
      · exact Or.inl ⟨h2, Or.inr h1⟩
      · refine Or.inr ⟨_, h1, ?_, rfl, rfl, rfl, _, rfl, y, rfl, ?_⟩
        · rcases h2 with ⟨hv, _⟩ | ⟨hv, _⟩ <;> simp [isWrite, hv]
        · rcases h2 with ⟨_, x, hx⟩ | ⟨_, hx⟩ <;> (rw [hx]; try rfl)
  · cases hc : env.CreateRestClient "/apis" "config.istio.io" "v1alpha2" with
    | error e =>
      refine ⟨[], ?_, Or.inl ⟨?_, Or.inl rfl⟩⟩ <;>
        simp [step, handlers.createQuotaSpec, hc, succeeded]
    | ok c =>
      simp only [step, createQuotaSpec_eq_upsert env c hc, kindOf, nameOf]
      obtain ⟨t, ht, h⟩ := upsert_run c env.jsonQuotaSpec "quotaspecs" "lance-test"
        ("request-count-" ++ s)
        (fun x => { x with Spec := { x.Spec with Rules :=
          [{ Match := [], Quotas := [{ Quota := "quota-" ++ s, Charge := 1 }] }] } })
        (model.QuotaSpec ("request-count-" ++ s) "lance-test"
          [{ Match := [], Quotas := [{ Quota := "quota-" ++ s, Charge := 1 }] }]) w
      refine ⟨t, ht, ?_⟩
      rcases h with ⟨h1, h2⟩ | ⟨verb, y, h1, h2⟩
      · exact Or.inl ⟨h2, Or.inr h1⟩
      · refine Or.inr ⟨_, h1, ?_, rfl, rfl, rfl, _, rfl, y, rfl, ?_⟩
        · rcases h2 with ⟨hv, _⟩ | ⟨hv, _⟩ <;> simp [isWrite, hv]
        · rcases h2 with ⟨_, x, hx⟩ | ⟨_, hx⟩ <;> (rw [hx]; try rfl)
  · cases hc : env.CreateRestClient "/apis" "config.istio.io" "v1alpha2" with
    | error e =>
      refine ⟨[], ?_, Or.inl ⟨?_, Or.inl rfl⟩⟩ <;>
        simp [step, handlers.createQuotaSpecBinding, hc, succeeded]
    | ok c =>
      simp only [step, createQuotaSpecBinding_eq_upsert env c hc, kindOf, nameOf]
      obtain ⟨t, ht, h⟩ := upsert_run c env.jsonQuotaSpecBinding "quotaspecbindings" "lance-test"
        ("request-count-binding-" ++ s)
        (fun x => { x with Spec := bindingOf s src })
        (model.QuotaSpecBinding ("request-count-binding-" ++ s) "lance-test" (bindingOf s src)) w
      refine ⟨t, ht, ?_⟩
      rcases h with ⟨h1, h2⟩ | ⟨verb, y, h1, h2⟩
      · exact Or.inl ⟨h2, Or.inr h1⟩
      · refine Or.inr ⟨_, h1, ?_, rfl, rfl, rfl, _, rfl, y, rfl, ?_⟩
        · rcases h2 with ⟨hv, _⟩ | ⟨hv, _⟩ <;> simp [isWrite, hv]
        · rcases h2 with ⟨_, x, hx⟩ | ⟨_, hx⟩ <;> (rw [hx]; try rfl)

theorem reconcile_step_failed {σ : Type} (env : Env σ) (s src : String) (k n : Nat)
    (w : World σ) (h : succeeded (step env s src k w).1 = false) :
    (reconcile env s src k (n + 1) w).2 = (step env s src k w).2 ∧
    (reconcile env s src k (n + 1) w).1 ≠ .ret ⟨201, ""⟩ ∧
    ((∃ bs e, (step env s src k w).1 = .ret (bs, some e)) →
      ∃ text, (reconcile env s src k (n + 1) w).1 = .ret ⟨500, text⟩) := by
  rcases hs : step env s src k w with ⟨o, w1⟩
  rw [hs] at h
  rcases o with ⟨b, _ | e⟩ | _
  · simp [succeeded] at h
  · simp [reconcile, hs]
  · simp [reconcile, hs]

theorem reconcile_step_succeeded {σ : Type} (env : Env σ) (s src : String) (k n : Nat)
    (w : World σ) (h : succeeded (step env s src k w).1 = true) :
    reconcile env s src k (n + 1) w = reconcile env s src (k + 1) n (step env s src k w).2 := by
  rcases hs : step env s src k w with ⟨o, w1⟩
  rw [hs] at h
  rcases o with ⟨b, _ | e⟩ | _
  · simp [reconcile, hs]
  · simp [succeeded] at h
  · simp [succeeded] at h

theorem reconcile_calls {σ : Type} (env : Env σ) (s src : String) (n : Nat) :
    ∀ (k : Nat) (w : World σ), k + n = 5 →
      ∃ t, (reconcile env s src k n w).2.trace = w.trace ++ t ∧
        Calls env s src k n (reconcile env s src k n w).1 t := by
  induction n with
  | zero =>
    intro k w _
    exact ⟨[], by simp [reconcile], by simp [reconcile, Calls]⟩
  | succ n ih =>
    intro k w hk
    obtain ⟨t, ht, h⟩ := step_run env s src k (by omega) w
    cases hsucc : succeeded (step env s src k w).1 with
    | false =>
      obtain ⟨h1, h2, _⟩ := reconcile_step_failed env s src k n w hsucc
      refine ⟨t, by rw [h1, ht], ?_⟩
      refine Or.inl ⟨h2, ?_⟩
      rcases h with ⟨_, h | h⟩ | ⟨q, hq, hw⟩
      · exact Or.inl h
      · exact Or.inr (Or.inl h)
      · exact Or.inr (Or.inr ⟨q, hq, hw⟩)
    | true =>
      rw [reconcile_step_succeeded env s src k n w hsucc]
      rcases h with ⟨h, _⟩ | ⟨q, hq, hw⟩
      · rw [hsucc] at h
        exact absurd h (by decide)
      · obtain ⟨t2, ht2, hc⟩ := ih (k + 1) (step env s src k w).2 (by omega)
        refine ⟨t ++ t2, by rw [ht2, ht, List.append_assoc], ?_⟩
        refine Or.inr ⟨q, t2, by rw [hq]; rfl, hw, hc⟩

theorem reconcile_eq_runUpserts {σ : Type} (env : Env σ) (s src : String) (n : Nat) :
    ∀ (k : Nat) (w : World σ),
      reconcile env s src k n w = runUpserts k (stepsFrom env s src k n) w := by
  induction n with
  | zero =>
    intro k w
    rfl
  | succ n ih =>
    intro k w
    simp only [reconcile, stepsFrom, runUpserts]
    rcases h : step env s src k w with ⟨⟨b, _ | e⟩ | _, w1⟩
    · exact ih (k + 1) w1
    · rfl
    · rfl

theorem HandleRateLimit_eq_runUpserts {σ : Type} (env : Env σ) (r : http.Request)
    (s : String) (limit : List (String × Int)) (ha : Accepted env r s limit) (w : World σ) :
    handlers.HandleRateLimit env r w =
      runUpserts 0
        [ handlers.createQuota env ("requestcount-" ++ s) "lance-test" quotaDimensions,
          handlers.createMemQuota env ("handler-" ++ s) "lance-test"
            [("destination", s), ("source", handlers.firstKey limit "" 0)],
          handlers.createRule env ("quota-" ++ s) "lance-test"
            [{ Handler := ("handler-" ++ s) ++ ".memquota",
               Instances := ["requestcount.quota"] }],
          handlers.createQuotaSpec env ("request-count-" ++ s) "lance-test"
            [{ Match := [], Quotas := [{ Quota := "quota-" ++ s, Charge := 1 }] }],
          handlers.createQuotaSpecBinding env ("request-count-binding-" ++ s) "lance-test"
            (bindingOf s (handlers.firstKey limit "" 0)) ] w := by
  rw [HandleRateLimit_eq_reconcile env r s limit ha w, reconcile_eq_runUpserts]
  rfl

theorem HandleRateLimit_calls {σ : Type} (env : Env σ) (r : http.Request)
    (s : String) (limit : List (String × Int)) (ha : Accepted env r s limit) (w : World σ) :
    ∃ t, (handlers.HandleRateLimit env r w).2.trace = w.trace ++ t ∧
      Calls env s (handlers.firstKey limit "" 0) 0 5 (handlers.HandleRateLimit env r w).1 t := by
  rw [HandleRateLimit_eq_reconcile env r s limit ha w]
  exact reconcile_calls env s _ 5 0 w rfl

theorem HandleRateLimit_created_accepted {σ : Type} (env : Env σ) (r : http.Request)
    (w : World σ) (text : String)
    (h : (handlers.HandleRateLimit env r w).1 = .ret ⟨201, text⟩) :
    ∃ limit, Accepted env r (r.Header "service_name") limit := by
  unfold handlers.HandleRateLimit at h
  by_cases hm : r.Method = "POST"
  swap
  · simp [hm] at h
  rcases hb : r.Body with e | bs
  · simp [hm, hb] at h
  by_cases hc : r.Header "Content-Type" = "application/json"
  · simp [hm, hb, hc] at h
  rcases hy : env.yamlUnmarshal bs with e | chassis
  · simp [hm, hb, hc, hy] at h
  by_cases hs : r.Header "service_name" = ""
  · simp [hm, hb, hc, hy, hs] at h
  exact ⟨chassis.Limit, hm, ⟨bs, hb, hy⟩, hc, rfl, hs⟩

/-! ## The shape of a run -/

theorem kindOf_injective (i j : Nat) (hi : i < 5) (hj : j < 5) (h : kindOf i = kindOf j) :
    i = j := by
  interval_cases i <;> interval_cases j <;> first | rfl | (exact absurd h (by decide))

theorem Calls_mem {σ : Type} (env : Env σ) (s src : String) (resp : Outcome http.Response)
    (n : Nat) :
    ∀ (k : Nat) (t : List rest.Request), Calls env s src k n resp t →
      ∀ q ∈ t, ∃ i, k ≤ i ∧ i < k + n ∧ q.resource = kindOf i ∧ q.ns = "lance-test" ∧
        q.name = nameOf s i ∧
        (isWrite q = true → ∃ b, q.body = some b ∧ BodyOK env s src i b) := by
  induction n with
  | zero =>
    intro k t h q hq
    obtain ⟨_, ht⟩ := h
    rw [ht] at hq
    cases hq
  | succ n ih =>
    intro k t h q hq
    have hget : ∃ i, k ≤ i ∧ i < k + (n + 1) ∧
        (getReq (kindOf k) "lance-test" (nameOf s k)).resource = kindOf i ∧
        (getReq (kindOf k) "lance-test" (nameOf s k)).ns = "lance-test" ∧
        (getReq (kindOf k) "lance-test" (nameOf s k)).name = nameOf s i ∧
        (isWrite (getReq (kindOf k) "lance-test" (nameOf s k)) = true →
          ∃ b, (getReq (kindOf k) "lance-test" (nameOf s k)).body = some b ∧
            BodyOK env s src i b) :=
      ⟨k, le_refl k, by omega, rfl, rfl, rfl, fun hw => by simp [isWrite, getReq] at hw⟩
    have hwrite : ∀ q2, WriteOf env s src k q2 →
        ∃ i, k ≤ i ∧ i < k + (n + 1) ∧ q2.resource = kindOf i ∧ q2.ns = "lance-test" ∧
          q2.name = nameOf s i ∧
          (isWrite q2 = true → ∃ b, q2.body = some b ∧ BodyOK env s src i b) := by
      intro q2 hw
      obtain ⟨_, h2, h3, h4, h5⟩ := hw
      exact ⟨k, le_refl k, by omega, h2, h3, h4, fun _ => h5⟩
    rcases h with ⟨_, ht | ht | ⟨q2, ht, hw⟩⟩ | ⟨q2, rest, ht, hw, hrest⟩
    · rw [ht] at hq
      cases hq
    · rw [ht] at hq
      simp only [List.mem_singleton] at hq
      rw [hq]
      exact hget
    · rw [ht] at hq
      simp only [List.mem_cons, List.mem_singleton, List.not_mem_nil, or_false] at hq
      rcases hq with hq | hq
      · rw [hq]
        exact hget
      · rw [hq]
        exact hwrite q2 hw
    · rw [ht] at hq
      simp only [List.mem_cons] at hq
      rcases hq with hq | hq | hq
      · rw [hq]
        exact hget
      · rw [hq]
        exact hwrite q2 hw
      · obtain ⟨i, h1, h2, h3⟩ := ih (k + 1) rest hrest q hq
        exact ⟨i, by omega, by omega, h3⟩

theorem Calls_created {σ : Type} (env : Env σ) (s src : String) (n : Nat) :
    ∀ (k : Nat) (t : List rest.Request), Calls env s src k n (.ret ⟨201, ""⟩) t →
      t.map target = expectedTargets s k n := by
  induction n with
  | zero =>
    intro k t h
    obtain ⟨_, ht⟩ := h
    rw [ht]
    rfl
  | succ n ih =>
    intro k t h
    rcases h with ⟨hne, _⟩ | ⟨q, rest, ht, hw, hrest⟩
    · exact absurd rfl hne
    · obtain ⟨h1, h2, h3, h4, _⟩ := hw
      rw [ht]
      simp only [List.map_cons, expectedTargets, ih (k + 1) rest hrest]
      have hg : isWrite (getReq (kindOf k) "lance-test" (nameOf s k)) = false := rfl
      simp only [target, h1, h2, h3, h4, hg]
      rfl

theorem expectedTargets_five (s : String) :
    expectedTargets s 0 5 =
      [ (false, "quotas", "lance-test", "requestcount-" ++ s),
        (true, "quotas", "lance-test", "requestcount-" ++ s),
        (false, "memquotas", "lance-test", "handler-" ++ s),
        (true, "memquotas", "lance-test", "handler-" ++ s),
        (false, "rules", "lance-test", "quota-" ++ s),
        (true, "rules", "lance-test", "quota-" ++ s),
        (false, "quotaspecs", "lance-test", "request-count-" ++ s),
        (true, "quotaspecs", "lance-test", "request-count-" ++ s),
        (false, "quotaspecbindings", "lance-test", "request-count-binding-" ++ s),
        (true, "quotaspecbindings", "lance-test", "request-count-binding-" ++ s) ] := rfl

theorem filter_map_of_targets (t : List rest.Request) (l : List (Bool × String × String × String))
    (h : t.map target = l) :
    (t.filter isWrite).map (fun q => (q.resource, q.ns, q.name)) =
      (l.filter (fun p => p.1)).map (fun p => p.2) := by
  subst h
  induction t with
  | nil => rfl
  | cons q t ih =>
    by_cases hq : isWrite q = true
    · simp [List.filter_cons, hq, target, ih]
    · simp [List.filter_cons, hq, target, ih]

/-- C3: in every run of `HandleRateLimit` that answers 201 (all five upserts
succeeded) the requests sent are, in this order, the GET and then the write
for quotas, memquotas, rules, quotaspecs and quotaspecbindings; so the writes
by resource kind are exactly those five kinds in that order, one write per
kind. -/
theorem write_order {σ : Type} (env : Env σ) (r : http.Request) (w : World σ)
    (h : (handlers.HandleRateLimit env r w).1 = .ret ⟨201, ""⟩) :
    ∃ t, (handlers.HandleRateLimit env r w).2.trace = w.trace ++ t ∧
      t.map (fun q => (isWrite q, q.resource)) =
        [ (false, "quotas"), (true, "quotas"), (false, "memquotas"), (true, "memquotas"),
          (false, "rules"), (true, "rules"), (false, "quotaspecs"), (true, "quotaspecs"),
          (false, "quotaspecbindings"), (true, "quotaspecbindings") ] ∧
      (t.filter isWrite).map (fun q => q.resource) =
        ["quotas", "memquotas", "rules", "quotaspecs", "quotaspecbindings"] := by
  obtain ⟨limit, ha⟩ := HandleRateLimit_created_accepted env r w "" h
  obtain ⟨t, ht, hc⟩ := HandleRateLimit_calls env r _ limit ha w
  rw [h] at hc
  have hm := Calls_created env _ _ 5 0 t hc
  rw [expectedTargets_five] at hm
  refine ⟨t, ht, ?_, ?_⟩
  · have := congrArg (List.map (fun p : Bool × String × String × String => (p.1, p.2.1))) hm
    simpa [List.map_map, Function.comp_def, target] using this
  · have := congrArg (List.map (fun p : String × String × String => p.1))
      (filter_map_of_targets t _ hm)
    simpa [List.map_map, Function.comp_def] using this

theorem reconcile_after_successes {σ : Type} (env : Env σ) (s src : String) (w : World σ) :
    ∀ (N n : Nat), (∀ j, j < N → succeeded (outcomeOf env s src j w) = true) →
      reconcile env s src 0 (N + n) w = reconcile env s src N n (worldBefore env s src N w) := by
  intro N
  induction N with
  | zero =>
    intro n _
    simp [worldBefore]
  | succ N ih =>
    intro n hprev
    have h1 := ih (n + 1) (fun j hj => hprev j (by omega))
    have e : N + 1 + n = N + (n + 1) := by omega
    rw [e, h1, reconcile_step_succeeded env s src N n _ (hprev N (by omega))]
    rfl

theorem worldBefore_trace {σ : Type} (env : Env σ) (s src : String) (w : World σ) :
    ∀ N, N ≤ 5 → ∃ t, (worldBefore env s src N w).trace = w.trace ++ t ∧
      ∀ q ∈ t, ∃ i, i < N ∧ q.resource = kindOf i := by
  intro N
  induction N with
  | zero =>
    intro _
    exact ⟨[], by simp [worldBefore], fun q hq => by cases hq⟩
  | succ N ih =>
    intro hN
    obtain ⟨t, ht, hq⟩ := ih (by omega)
    obtain ⟨t2, ht2, h2⟩ := step_run env s src N (by omega) (worldBefore env s src N w)
    refine ⟨t ++ t2, by simp only [worldBefore]; rw [ht2, ht, List.append_assoc], ?_⟩
    intro q hmem
    rcases List.mem_append.1 hmem with hm | hm
    · obtain ⟨i, hi, hr⟩ := hq q hm
      exact ⟨i, by omega, hr⟩
    · refine ⟨N, by omega, ?_⟩
      rcases h2 with ⟨_, h | h⟩ | ⟨q2, h, hw⟩
      · rw [h] at hm
        cases hm
      · rw [h] at hm
        simp only [List.mem_singleton] at hm
        rw [hm]
        rfl
      · rw [h] at hm
        simp only [List.mem_cons, List.mem_singleton, List.not_mem_nil, or_false] at hm
        rcases hm with hm | hm
        · rw [hm]
          rfl
        · rw [hm]
          exact hw.2.1

/-- C2: for every accepted request and every step `N` of the five (counted
from 0: Quota, MemQuota, Rule, QuotaSpec, QuotaSpecBinding), if the steps
before `N` succeeded and the upsert of step `N` returns an error, then
`HandleRateLimit` stops there: it answers 500, the world it leaves is the one
in which step `N` returned, and none of the requests it sent goes to the
resource kind of a later step. -/
theorem fail_fast {σ : Type} (env : Env σ) (r : http.Request) (s : String)
    (limit : List (String × Int)) (ha : Accepted env r s limit) (w : World σ)
    (N : Nat) (hN : N < 5)
    (hprev : ∀ j, j < N →
      succeeded (outcomeOf env s (handlers.firstKey limit "" 0) j w) = true)
    (hfail : ∃ bs e, outcomeOf env s (handlers.firstKey limit "" 0) N w = .ret (bs, some e)) :
    (handlers.HandleRateLimit env r w).2 =
      worldBefore env s (handlers.firstKey limit "" 0) (N + 1) w ∧
    (∃ text, (handlers.HandleRateLimit env r w).1 = .ret ⟨500, text⟩) ∧
    ∃ t, (handlers.HandleRateLimit env r w).2.trace = w.trace ++ t ∧
      ∀ q ∈ t, ∀ j, N < j → j < 5 → q.resource ≠ kindOf j := by
  obtain ⟨m, hm⟩ : ∃ m, 5 = N + (m + 1) := ⟨4 - N, by omega⟩
  have hrun := reconcile_after_successes env s (handlers.firstKey limit "" 0) w N (m + 1) hprev
  rw [← hm] at hrun
  have hf : succeeded (step env s (handlers.firstKey limit "" 0) N
      (worldBefore env s (handlers.firstKey limit "" 0) N w)).1 = false := by
    obtain ⟨bs, e, he⟩ := hfail
    unfold outcomeOf at he
    rw [he]
    rfl
  obtain ⟨h1, _, h3⟩ := reconcile_step_failed env s (handlers.firstKey limit "" 0) N m _ hf
  have hw : (handlers.HandleRateLimit env r w).2 =
      worldBefore env s (handlers.firstKey limit "" 0) (N + 1) w := by
    rw [HandleRateLimit_eq_reconcile env r s limit ha w, hrun, h1]
    rfl
  refine ⟨hw, ?_, ?_⟩
  · rw [HandleRateLimit_eq_reconcile env r s limit ha w, hrun]
    exact h3 hfail
  · obtain ⟨t, ht, hq⟩ := worldBefore_trace env s (handlers.firstKey limit "" 0) w (N + 1)
      (by omega)
    refine ⟨t, by rw [hw, ht], ?_⟩
    intro q hmem j hj hj5 hres
    obtain ⟨i, hi, hr⟩ := hq q hmem
    have := kindOf_injective i j (by omega) hj5 (by rw [← hr, hres])
    omega

/-! ## What the written payloads hold -/

theorem HandleRateLimit_writes {σ : Type} (env : Env σ) (r : http.Request) (s : String)
    (limit : List (String × Int)) (ha : Accepted env r s limit) (w : World σ) :
    ∃ t, (handlers.HandleRateLimit env r w).2.trace = w.trace ++ t ∧
      Calls env s (handlers.firstKey limit "" 0) 0 5 (handlers.HandleRateLimit env r w).1 t ∧
      ∀ q ∈ t, isWrite q = true → ∀ i, i < 5 → q.resource = kindOf i →
        ∃ b, q.body = some b ∧ BodyOK env s (handlers.firstKey limit "" 0) i b := by
  obtain ⟨t, ht, hc⟩ := HandleRateLimit_calls env r s limit ha w
  refine ⟨t, ht, hc, ?_⟩
  intro q hq hw i hi hr
  obtain ⟨j, _, hj, h1, _, _, h4⟩ := Calls_mem env s _ _ 5 0 t hc q hq
  have : j = i := kindOf_injective j i (by omega) hi (by rw [← h1, hr])
  subst this
  exact h4 hw

theorem paramsQuota_eq (name : String) (dimensions : StrMap) :
    paramsQuota name dimensions =
      { Name := "memquota-quota-" ++ name, MaxAmount := 1000, ValidDuration := 1000000000,
        Overrides := [{ Dimensions := dimensions, MaxAmount := 1, ValidDuration := 5000000000 }] } := by
  simp [paramsQuota, time.Second]

theorem createMemQuota_builds {σ : Type} (env : Env σ) (c2 : rest.RESTClient σ)
    (h2 : env.CreateRestClient "apis" "config.istio.io" "v1alpha2" = .ok c2)
    (name ns : String) (dimensions : StrMap) :
    Builds (handlers.createMemQuota env name ns dimensions) c2 env.jsonMemQuota "memquotas" ns
      name (fun m => m.Spec.Quotas = [paramsQuota name dimensions]) := by
  have e : handlers.createMemQuota env name ns dimensions =
      upsert c2 env.jsonMemQuota "memquotas" ns name
      (fun m => { m with Spec := { m.Spec with Quotas := [paramsQuota name dimensions] } })
      (model.MemQuota name ns [paramsQuota name dimensions]) :=
    funext (createMemQuota_eq_upsert env c2 h2 name ns dimensions)
  rw [e]
  exact upsert_builds _ _ _ _ _ _ _ _ rfl (fun _ => rfl)

theorem createQuotaSpecBinding_builds {σ : Type} (env : Env σ) (c : rest.RESTClient σ)
    (h : env.CreateRestClient "/apis" "config.istio.io" "v1alpha2" = .ok c)
    (name ns : String) (binding : client.QuotaSpecBinding) :
    Builds (handlers.createQuotaSpecBinding env name ns binding) c env.jsonQuotaSpecBinding
      "quotaspecbindings" ns name (fun b => b.Spec = binding) := by
  have e : handlers.createQuotaSpecBinding env name ns binding =
      upsert c env.jsonQuotaSpecBinding "quotaspecbindings" ns name
      (fun x => { x with Spec := binding })
      (model.QuotaSpecBinding name ns binding) :=
    funext (createQuotaSpecBinding_eq_upsert env c h name ns binding)
  rw [e]
  exact upsert_builds _ _ _ _ _ _ _ _ rfl (fun _ => rfl)

theorem Builds.weaken {σ α : Type} {f : World σ → Outcome handlers.Ret × World σ}
    {c : rest.RESTClient σ} {cd : Codec α} {resource ns name : String}
    {desired desired2 : α → Prop} (h : Builds f c cd resource ns name desired)
    (himp : ∀ y, desired y → desired2 y) : Builds f c cd resource ns name desired2 := by
  intro w hf hcase
  obtain ⟨q, y, h1, h2, h3, h4, h5, h6, h7⟩ := h w hf hcase
  exact ⟨q, y, h1, h2, h3, h4, h5, h6, himp y h7⟩

/-- C6: for every accepted request for the service `s` whose limit map has
the single key `k`, `HandleRateLimit` is the run of the five upserts in which
`createMemQuota` gets the dimension map destination `s`, source `k` and
`createQuotaSpecBinding` gets the binding of the two services `s` then `k`,
both in the namespace `default`. Whenever its GET lets it write,
`createMemQuota` writes a MemQuota holding exactly one quota policy, with
default max-amount 1000 per second and exactly one override, of dimensions
destination `s` and source `k`, max-amount 1 and validity 5 seconds, and
`createQuotaSpecBinding` writes a binding listing exactly those two services.
In every run every MemQuota and QuotaSpecBinding payload written is such, and
a run that answers 201 has written both. -/
theorem translation {σ : Type} (env : Env σ) (r : http.Request) (s k : String) (v : Int)
    (ha : Accepted env r s [(k, v)]) (w : World σ) :
    handlers.HandleRateLimit env r w =
      runUpserts 0
        [ handlers.createQuota env ("requestcount-" ++ s) "lance-test" quotaDimensions,
          handlers.createMemQuota env ("handler-" ++ s) "lance-test"
            [("destination", s), ("source", k)],
          handlers.createRule env ("quota-" ++ s) "lance-test"
            [{ Handler := ("handler-" ++ s) ++ ".memquota",
               Instances := ["requestcount.quota"] }],
          handlers.createQuotaSpec env ("request-count-" ++ s) "lance-test"
            [{ Match := [], Quotas := [{ Quota := "quota-" ++ s, Charge := 1 }] }],
          handlers.createQuotaSpecBinding env ("request-count-binding-" ++ s) "lance-test"
            { Services :=
                [ { Name := s, Namespace := "default", Domain := "", Service := "",
                    Labels := [] },
                  { Name := k, Namespace := "default", Domain := "", Service := "",
                    Labels := [] } ],
              QuotaSpecs := [{ Name := "request-count-" ++ s, Namespace := "lance-test" }] } ]
        w ∧
    (∀ c2, env.CreateRestClient "apis" "config.istio.io" "v1alpha2" = .ok c2 →
      Builds
        (handlers.createMemQuota env ("handler-" ++ s) "lance-test"
          [("destination", s), ("source", k)])
        c2 env.jsonMemQuota "memquotas" "lance-test" ("handler-" ++ s)
        (fun m => m.Spec.Quotas =
          [{ Name := "memquota-quota-" ++ ("handler-" ++ s), MaxAmount := 1000,
             ValidDuration := 1000000000,
             Overrides := [{ Dimensions := [("destination", s), ("source", k)],
                             MaxAmount := 1, ValidDuration := 5000000000 }] }])) ∧
    (∀ c, env.CreateRestClient "/apis" "config.istio.io" "v1alpha2" = .ok c →
      Builds
        (handlers.createQuotaSpecBinding env ("request-count-binding-" ++ s) "lance-test"
          { Services :=
              [ { Name := s, Namespace := "default", Domain := "", Service := "",
                  Labels := [] },
                { Name := k, Namespace := "default", Domain := "", Service := "",
                  Labels := [] } ],
            QuotaSpecs := [{ Name := "request-count-" ++ s, Namespace := "lance-test" }] })
        c env.jsonQuotaSpecBinding "quotaspecbindings" "lance-test"
        ("request-count-binding-" ++ s)
        (fun b => b.Spec.Services =
          [ { Name := s, Namespace := "default", Domain := "", Service := "", Labels := [] },
            { Name := k, Namespace := "default", Domain := "", Service := "",
              Labels := [] } ])) ∧
    ∃ t, (handlers.HandleRateLimit env r w).2.trace = w.trace ++ t ∧
      (∀ q ∈ t, isWrite q = true → q.resource = "memquotas" →
        ∃ m : model.StructMemQuota, q.body = some (env.jsonMemQuota.Marshal m) ∧
          m.Spec.Quotas =
            [{ Name := "memquota-quota-" ++ ("handler-" ++ s), MaxAmount := 1000,
               ValidDuration := 1000000000,
               Overrides := [{ Dimensions := [("destination", s), ("source", k)],
                               MaxAmount := 1, ValidDuration := 5000000000 }] }]) ∧
      (∀ q ∈ t, isWrite q = true → q.resource = "quotaspecbindings" →
        ∃ b : model.StructQuotaSpecBinding,
          q.body = some (env.jsonQuotaSpecBinding.Marshal b) ∧
          b.Spec.Services =
            [ { Name := s, Namespace := "default", Domain := "", Service := "", Labels := [] },
              { Name := k, Namespace := "default", Domain := "", Service := "", Labels := [] } ]) ∧
      ((handlers.HandleRateLimit env r w).1 = .ret ⟨201, ""⟩ →
        (∃ q ∈ t, isWrite q = true ∧ q.resource = "memquotas") ∧
        (∃ q ∈ t, isWrite q = true ∧ q.resource = "quotaspecbindings")) := by
  refine ⟨?_, ?_, ?_, ?_⟩
  · have h := HandleRateLimit_eq_runUpserts env r s [(k, v)] ha w
    rw [firstKey_cons] at h
    exact h
  · intro c2 h2
    refine (createMemQuota_builds env c2 h2 _ _ _).weaken ?_
    intro m hm
    rw [hm, paramsQuota_eq]
  · intro c h
    refine (createQuotaSpecBinding_builds env c h _ _ _).weaken ?_
    intro b hb
    rw [hb]
  obtain ⟨t, ht, hc, hb⟩ := HandleRateLimit_writes env r s [(k, v)] ha w
  rw [firstKey_cons] at hc hb
  refine ⟨t, ht, ?_, ?_, ?_⟩
  · intro q hq hw hr
    obtain ⟨b, hbody, m, hm, hq2⟩ := hb q hq hw 1 (by omega) hr
    refine ⟨m, by rw [hbody, hm], ?_⟩
    rw [hq2, paramsQuota_eq]
  · intro q hq hw hr
    obtain ⟨b, hbody, y, hy, hq2⟩ := hb q hq hw 4 (by omega) hr
    refine ⟨y, by rw [hbody, hy], ?_⟩
    rw [hq2]
    rfl
  · intro h
    rw [h] at hc
    have hm := Calls_created env _ _ 5 0 t hc
    rw [expectedTargets_five] at hm
    have h1 : (true, "memquotas", "lance-test", "handler-" ++ s) ∈ t.map target := by
      rw [hm]
      simp
    have h2 : (true, "quotaspecbindings", "lance-test", "request-count-binding-" ++ s) ∈
        t.map target := by
      rw [hm]
      simp
    obtain ⟨q1, hq1, e1⟩ := List.mem_map.1 h1
    obtain ⟨q2, hq2, e2⟩ := List.mem_map.1 h2
    simp only [target, Prod.mk.injEq] at e1 e2
    exact ⟨⟨q1, hq1, e1.1, e1.2.1⟩, ⟨q2, hq2, e2.1, e2.2.1⟩⟩

theorem reconcile_first_call {σ : Type} (env : Env σ) (s src : String) (w : World σ)
    (c : rest.RESTClient σ)
    (hc : env.CreateRestClient "/apis" "config.istio.io" "v1alpha2" = .ok c) :
    ∃ t, (reconcile env s src 0 5 w).2.trace =
      w.trace ++ getReq "quotas" "lance-test" ("requestcount-" ++ s) :: t := by
  have hstep : ∃ t0, (step env s src 0 w).2.trace =
      w.trace ++ getReq "quotas" "lance-test" ("requestcount-" ++ s) :: t0 := by
    simp only [step, createQuota_eq_upsert env c hc]
    obtain ⟨t, ht, h⟩ := upsert_run c env.jsonQuota "quotas" "lance-test" ("requestcount-" ++ s)
      (fun q => { q with Spec := { q.Spec with Dimensions := quotaDimensions } })
      (model.Quota ("requestcount-" ++ s) "lance-test" quotaDimensions) w
    rcases h with ⟨h1, _⟩ | ⟨verb, y, h1, _⟩
    · exact ⟨[], by rw [ht, h1]⟩
    · exact ⟨_, by rw [ht, h1]⟩
  obtain ⟨t0, ht0⟩ := hstep
  cases hsucc : succeeded (step env s src 0 w).1 with
  | false =>
    obtain ⟨h1, _, _⟩ := reconcile_step_failed env s src 0 4 w hsucc
    exact ⟨t0, by rw [h1, ht0]⟩
  | true =>
    rw [reconcile_step_succeeded env s src 0 4 w hsucc]
    obtain ⟨t2, ht2, _⟩ := reconcile_calls env s src 4 1 (step env s src 0 w).2 rfl
    exact ⟨t0 ++ t2, by rw [ht2, ht0]; simp⟩

/-- C7: for every accepted request naming the service `s`, whatever the spec
and the remote state, `HandleRateLimit` is the run of the five upserts with
the resource names `requestcount-s` (quotas), `handler-s` (memquotas),
`quota-s` (rules), `request-count-s` (quotaspecs) and
`request-count-binding-s` (quotaspecbindings). Its first request, whenever
the REST client is there, is the GET of quotas/`requestcount-s`; every
request it sends goes to one of those five resources; and a run that answers
201 sends the GET and the write of each of them, in this order. -/
theorem resource_names {σ : Type} (env : Env σ) (r : http.Request) (s : String)
    (limit : List (String × Int)) (ha : Accepted env r s limit) (w : World σ) :
    handlers.HandleRateLimit env r w =
      runUpserts 0
        [ handlers.createQuota env ("requestcount-" ++ s) "lance-test" quotaDimensions,
          handlers.createMemQuota env ("handler-" ++ s) "lance-test"
            [("destination", s), ("source", handlers.firstKey limit "" 0)],
          handlers.createRule env ("quota-" ++ s) "lance-test"
            [{ Handler := ("handler-" ++ s) ++ ".memquota",
               Instances := ["requestcount.quota"] }],
          handlers.createQuotaSpec env ("request-count-" ++ s) "lance-test"
            [{ Match := [], Quotas := [{ Quota := "quota-" ++ s, Charge := 1 }] }],
          handlers.createQuotaSpecBinding env ("request-count-binding-" ++ s) "lance-test"
            (bindingOf s (handlers.firstKey limit "" 0)) ] w ∧
    ∃ t, (handlers.HandleRateLimit env r w).2.trace = w.trace ++ t ∧
      (∀ c, env.CreateRestClient "/apis" "config.istio.io" "v1alpha2" = .ok c →
        ∃ t2, t = getReq "quotas" "lance-test" ("requestcount-" ++ s) :: t2) ∧
      (∀ q ∈ t, (q.resource, q.name) ∈
        [ ("quotas", "requestcount-" ++ s), ("memquotas", "handler-" ++ s),
          ("rules", "quota-" ++ s), ("quotaspecs", "request-count-" ++ s),
          ("quotaspecbindings", "request-count-binding-" ++ s) ]) ∧
      ((handlers.HandleRateLimit env r w).1 = .ret ⟨201, ""⟩ →
        t.map (fun q => (isWrite q, q.resource, q.name)) =
          [ (false, "quotas", "requestcount-" ++ s), (true, "quotas", "requestcount-" ++ s),
            (false, "memquotas", "handler-" ++ s), (true, "memquotas", "handler-" ++ s),
            (false, "rules", "quota-" ++ s), (true, "rules", "quota-" ++ s),
            (false, "quotaspecs", "request-count-" ++ s),
            (true, "quotaspecs", "request-count-" ++ s),
            (false, "quotaspecbindings", "request-count-binding-" ++ s),
            (true, "quotaspecbindings", "request-count-binding-" ++ s) ]) := by
  refine ⟨HandleRateLimit_eq_runUpserts env r s limit ha w, ?_⟩
  obtain ⟨t, ht, hc⟩ := HandleRateLimit_calls env r s limit ha w
  refine ⟨t, ht, ?_, ?_, ?_⟩
  · intro c hcl
    obtain ⟨t2, ht2⟩ := reconcile_first_call env s (handlers.firstKey limit "" 0) w c hcl
    rw [HandleRateLimit_eq_reconcile env r s limit ha w, ht2] at ht
    exact ⟨t2, (List.append_cancel_left ht).symm⟩
  · intro q hq
    obtain ⟨i, _, hi, h1, _, h3, _⟩ := Calls_mem env s _ _ 5 0 t hc q hq
    rw [h1, h3]
    interval_cases i <;> simp [kindOf, nameOf]
  · intro h
    rw [h] at hc
    have hm := Calls_created env _ _ 5 0 t hc
    rw [expectedTargets_five] at hm
    have := congrArg (List.map (fun p : Bool × String × String × String => (p.1, p.2.1, p.2.2.2))) hm
    simpa [List.map_map, Function.comp_def, target] using this

/-- C5, as stated, fails: on an empty limit map, with nothing in the remote
store, `HandleRateLimit` sends all ten requests and answers 201. -/
theorem empty_limit_not_rejected :
    (handlers.HandleRateLimit (memEnv ⟨[]⟩) (requestFor "ratings") emptyWorld).1 =
        .ret ⟨201, ""⟩ ∧
    (handlers.HandleRateLimit (memEnv ⟨[]⟩) (requestFor "ratings") emptyWorld).2.trace.map
        (fun q => (q.verb, q.resource, q.name)) =
      [ (.GET, "quotas", "requestcount-ratings"), (.POST, "quotas", "requestcount-ratings"),
        (.GET, "memquotas", "handler-ratings"), (.POST, "memquotas", "handler-ratings"),
        (.GET, "rules", "quota-ratings"), (.POST, "rules", "quota-ratings"),
        (.GET, "quotaspecs", "request-count-ratings"),
        (.POST, "quotaspecs", "request-count-ratings"),
        (.GET, "quotaspecbindings", "request-count-binding-ratings"),
        (.POST, "quotaspecbindings", "request-count-binding-ratings") ] := by
  constructor <;> decide

/-- C5, amended: for every accepted request for a (non-empty) service `s`
whose limit map is empty, `HandleRateLimit` does not validate the map: it
goes on with the empty string as the traffic source. Whenever the REST client
is there its first request is the GET of quotas/`requestcount-s`; every
MemQuota payload it writes has the override dimensions destination `s` and
source `""`, and every QuotaSpecBinding payload lists the services `s` and
`""`. -/
theorem empty_limit_proceeds {σ : Type} (env : Env σ) (r : http.Request) (s : String)
    (ha : Accepted env r s []) (w : World σ) :
    ∃ t, (handlers.HandleRateLimit env r w).2.trace = w.trace ++ t ∧
      (∀ c, env.CreateRestClient "/apis" "config.istio.io" "v1alpha2" = .ok c →
        ∃ t2, t = getReq "quotas" "lance-test" ("requestcount-" ++ s) :: t2) ∧
      (∀ q ∈ t, isWrite q = true → q.resource = "memquotas" →
        ∃ m : model.StructMemQuota, q.body = some (env.jsonMemQuota.Marshal m) ∧
          m.Spec.Quotas =
            [{ Name := "memquota-quota-" ++ ("handler-" ++ s), MaxAmount := 1000,
               ValidDuration := 1000000000,
               Overrides := [{ Dimensions := [("destination", s), ("source", "")],
                               MaxAmount := 1, ValidDuration := 5000000000 }] }]) ∧
      (∀ q ∈ t, isWrite q = true → q.resource = "quotaspecbindings" →
        ∃ b : model.StructQuotaSpecBinding,
          q.body = some (env.jsonQuotaSpecBinding.Marshal b) ∧
          b.Spec.Services =
            [ { Name := s, Namespace := "default", Domain := "", Service := "", Labels := [] },
              { Name := "", Namespace := "default", Domain := "", Service := "", Labels := [] } ]) := by
  obtain ⟨t, ht, _, hb⟩ := HandleRateLimit_writes env r s [] ha w
  rw [firstKey_nil] at hb
  refine ⟨t, ht, ?_, ?_, ?_⟩
  · intro c hc
    obtain ⟨t2, ht2⟩ := reconcile_first_call env s "" w c hc
    rw [HandleRateLimit_eq_reconcile env r s [] ha w, firstKey_nil, ht2] at ht
    exact ⟨t2, (List.append_cancel_left ht).symm⟩
  · intro q hq hw hr
    obtain ⟨b, hbody, m, hm, hq2⟩ := hb q hq hw 1 (by omega) hr
    refine ⟨m, by rw [hbody, hm], ?_⟩
    rw [hq2, paramsQuota_eq]
  · intro q hq hw hr
    obtain ⟨b, hbody, y, hy, hq2⟩ := hb q hq hw 4 (by omega) hr
    refine ⟨y, by rw [hbody, hy], ?_⟩
    rw [hq2]
    rfl

/-- C10 on the code: for the service `ratings`, on an empty store, the Rule
that `HandleRateLimit` posts names the handler `handler-ratings.memquota` but
the instance `requestcount.quota`, which is not the name
`requestcount-ratings` of the Quota of step 1 followed by `.quota`. -/
theorem rule_instance_not_quota_name :
    (handlers.HandleRateLimit (memEnv ⟨[("reviews", 5)]⟩) (requestFor "ratings")
        emptyWorld).2.trace.get? 5 =
      some ⟨.POST, "rules", "lance-test", "quota-ratings",
        some ((wireCodec model.StructRule).Marshal
          (model.Rule "quota-ratings" "lance-test"
            [{ Handler := "handler-ratings.memquota",
               Instances := ["requestcount.quota"] }]))⟩ ∧
    "requestcount.quota" ≠ "requestcount-ratings" ++ ".quota" := by
  constructor <;> decide

/-! ## Idempotence over the in-memory store -/

theorem upsert_mem_absent {α : Type} (cd : Codec α) (resource ns name : String)
    (mutate : α → α) (fresh : α) (w : World Store)
    (h : w.remote (resource, ns, name) = none) :
    upsert memClient cd resource ns name mutate fresh w =
      (.ret (cd.Marshal fresh, none),
        { remote := Function.update w.remote (resource, ns, name) (some (cd.Marshal fresh)),
          trace := w.trace ++
            [getReq resource ns name, ⟨.POST, resource, ns, name, some (cd.Marshal fresh)⟩] }) := by
  have hg : rest.Do memClient (getReq resource ns name) w =
      (⟨[], some ⟨"not found", true⟩, 404⟩,
        { remote := w.remote, trace := w.trace ++ [getReq resource ns name] }) := by
    simp [rest.Do, memClient, getReq, h]
  rw [upsert_create memClient cd resource ns name mutate fresh w (by rw [hg]; rfl)
    (by rw [hg]; simp), hg]
  simp [rest.Do, memClient]

theorem upsert_mem_present {α : Type} (cd : Codec α) (resource ns name : String)
    (mutate : α → α) (fresh : α) (w : World Store) (b : Bytes) (x : α)
    (h : w.remote (resource, ns, name) = some b) (hd : cd.Unmarshal b = .ok (some x)) :
    upsert memClient cd resource ns name mutate fresh w =
      (.ret (cd.Marshal (mutate x), none),
        { remote := Function.update w.remote (resource, ns, name) (some (cd.Marshal (mutate x))),
          trace := w.trace ++
            [getReq resource ns name,
              ⟨.PUT, resource, ns, name, some (cd.Marshal (mutate x))⟩] }) := by
  have hg : rest.Do memClient (getReq resource ns name) w =
      (⟨b, none, 200⟩, { remote := w.remote, trace := w.trace ++ [getReq resource ns name] }) := by
    simp [rest.Do, memClient, getReq, h]
  rw [upsert_update memClient cd resource ns name mutate fresh w x (by rw [hg]; rfl)
    (by rw [hg]) (by rw [hg]; exact hd), hg]
  simp [rest.Do, memClient]

theorem upsert_mem_any {α : Type} (cd : Codec α) (resource ns name : String)
    (mutate : α → α) (fresh : α) (w : World Store)
    (h : ∀ b, w.remote (resource, ns, name) = some b → ∃ x, cd.Unmarshal b = .ok (some x)) :
    ∃ verb y, (y = fresh ∨ ∃ x, y = mutate x) ∧
      upsert memClient cd resource ns name mutate fresh w =
        (.ret (cd.Marshal y, none),
          { remote := Function.update w.remote (resource, ns, name) (some (cd.Marshal y)),
            trace := w.trace ++
              [getReq resource ns name, ⟨verb, resource, ns, name, some (cd.Marshal y)⟩] }) := by
  cases hst : w.remote (resource, ns, name) with
  | none =>
    exact ⟨.POST, fresh, Or.inl rfl, upsert_mem_absent cd resource ns name mutate fresh w hst⟩
  | some b =>
    obtain ⟨x, hx⟩ := h b hst
    exact ⟨.PUT, mutate x, Or.inr ⟨x, rfl⟩,
      upsert_mem_present cd resource ns name mutate fresh w b x hst hx⟩

theorem upsert_mem_settled {α : Type} (cd : Codec α) (hrt : RoundTrips cd)
    (resource ns name : String) (mutate : α → α) (fresh : α) (w : World Store) (y : α)
    (h : w.remote (resource, ns, name) = some (cd.Marshal y)) (hfix : mutate y = y) :
    upsert memClient cd resource ns name mutate fresh w =
      (.ret (cd.Marshal y, none),
        { remote := w.remote,
          trace := w.trace ++
            [getReq resource ns name, ⟨.PUT, resource, ns, name, some (cd.Marshal y)⟩] }) := by
  rw [upsert_mem_present cd resource ns name mutate fresh w (cd.Marshal y) y h (hrt y), hfix,
    ← h, Function.update_eq_self]

theorem step_mem_first (env : Env Store) (hstore : StoreBacked env) (s src : String)
    (i : Nat) (hi : i < 5) (w : World Store)
    (hdec : ∀ b, w.remote (keyOf s i) = some b → DecodesAt env i b) :
    ∃ verb b2, BodyOK env s src i b2 ∧
      step env s src i w =
        (.ret (b2, none),
          { remote := Function.update w.remote (keyOf s i) (some b2),
            trace := w.trace ++
              [getReq (kindOf i) "lance-test" (nameOf s i),
                ⟨verb, kindOf i, "lance-test", nameOf s i, some b2⟩] }) := by
  interval_cases i
  · obtain ⟨verb, y, hy, hu⟩ := upsert_mem_any env.jsonQuota "quotas" "lance-test"
      ("requestcount-" ++ s)
      (fun q => { q with Spec := { q.Spec with Dimensions := quotaDimensions } })
      (model.Quota ("requestcount-" ++ s) "lance-test" quotaDimensions) w hdec
    refine ⟨verb, _, ⟨y, rfl, ?_⟩, ?_⟩
    · rcases hy with hy | ⟨x, hy⟩ <;> (rw [hy]; try rfl)
    · simp only [step, createQuota_eq_upsert env memClient (hstore _ _ _)]
      exact hu
  · obtain ⟨verb, y, hy, hu⟩ := upsert_mem_any env.jsonMemQuota "memquotas" "lance-test"
      ("handler-" ++ s)
      (fun m => { m with Spec := { m.Spec with Quotas :=
        [paramsQuota ("handler-" ++ s) [("destination", s), ("source", src)]] } })
      (model.MemQuota ("handler-" ++ s) "lance-test"
        [paramsQuota ("handler-" ++ s) [("destination", s), ("source", src)]]) w hdec
    refine ⟨verb, _, ⟨y, rfl, ?_⟩, ?_⟩
    · rcases hy with hy | ⟨x, hy⟩ <;> (rw [hy]; try rfl)
    · simp only [step, createMemQuota_eq_upsert env memClient (hstore _ _ _)]
      exact hu
  · obtain ⟨verb, y, hy, hu⟩ := upsert_mem_any env.jsonRule "rules" "lance-test"
      ("quota-" ++ s)
      (fun x => { x with Spec := { x.Spec with Actions :=
        [{ Handler := ("handler-" ++ s) ++ ".memquota", Instances := ["requestcount.quota"] }] } })
      (model.Rule ("quota-" ++ s) "lance-test"
        [{ Handler := ("handler-" ++ s) ++ ".memquota", Instances := ["requestcount.quota"] }])
      w hdec
    refine ⟨verb, _, ⟨y, rfl, ?_⟩, ?_⟩
    · rcases hy with hy | ⟨x, hy⟩ <;> (rw [hy]; try rfl)
    · simp only [step, createRule_eq_upsert env memClient (hstore _ _ _)]
      exact hu
  · obtain ⟨verb, y, hy, hu⟩ := upsert_mem_any env.jsonQuotaSpec "quotaspecs" "lance-test"
      ("request-count-" ++ s)
      (fun x => { x with Spec := { x.Spec with Rules :=
        [{ Match := [], Quotas := [{ Quota := "quota-" ++ s, Charge := 1 }] }] } })
      (model.QuotaSpec ("request-count-" ++ s) "lance-test"
        [{ Match := [], Quotas := [{ Quota := "quota-" ++ s, Charge := 1 }] }]) w hdec
    refine ⟨verb, _, ⟨y, rfl, ?_⟩, ?_⟩
    · rcases hy with hy | ⟨x, hy⟩ <;> (rw [hy]; try rfl)
    · simp only [step, createQuotaSpec_eq_upsert env memClient (hstore _ _ _)]
      exact hu
  · obtain ⟨verb, y, hy, hu⟩ := upsert_mem_any env.jsonQuotaSpecBinding "quotaspecbindings"
      "lance-test" ("request-count-binding-" ++ s)
      (fun x => { x with Spec := bindingOf s src })
      (model.QuotaSpecBinding ("request-count-binding-" ++ s) "lance-test" (bindingOf s src))
      w hdec
    refine ⟨verb, _, ⟨y, rfl, ?_⟩, ?_⟩
    · rcases hy with hy | ⟨x, hy⟩ <;> (rw [hy]; try rfl)
    · simp only [step, createQuotaSpecBinding_eq_upsert env memClient (hstore _ _ _)]
      exact hu

theorem step_mem_second (env : Env Store) (hstore : StoreBacked env) (hrt : EnvRoundTrips env)
    (s src : String) (i : Nat) (hi : i < 5) (w : World Store) (b : Bytes)
    (h : w.remote (keyOf s i) = some b) (hb : BodyOK env s src i b) :
    step env s src i w =
      (.ret (b, none),
        { remote := w.remote,
          trace := w.trace ++
            [getReq (kindOf i) "lance-test" (nameOf s i),
              ⟨.PUT, kindOf i, "lance-test", nameOf s i, some b⟩] }) := by
  obtain ⟨r0, r1, r2, r3, r4⟩ := hrt
  interval_cases i
  · obtain ⟨y, hy, hq⟩ := hb
    subst hy
    simp only [step, createQuota_eq_upsert env memClient (hstore _ _ _)]
    exact upsert_mem_settled env.jsonQuota r0 _ _ _ _ _ w y h
      (by obtain ⟨m, ⟨d, e⟩⟩ := y; simp only at hq; rw [hq])
  · obtain ⟨y, hy, hq⟩ := hb
    subst hy
    simp only [step, createMemQuota_eq_upsert env memClient (hstore _ _ _)]
    exact upsert_mem_settled env.jsonMemQuota r1 _ _ _ _ _ w y h
      (by obtain ⟨m, ⟨d, e⟩⟩ := y; simp only at hq; rw [hq])
  · obtain ⟨y, hy, hq⟩ := hb
    subst hy
    simp only [step, createRule_eq_upsert env memClient (hstore _ _ _)]
    exact upsert_mem_settled env.jsonRule r2 _ _ _ _ _ w y h
      (by obtain ⟨m, ⟨d, e⟩⟩ := y; simp only at hq; rw [hq])
  · obtain ⟨y, hy, hq⟩ := hb
    subst hy
    simp only [step, createQuotaSpec_eq_upsert env memClient (hstore _ _ _)]
    exact upsert_mem_settled env.jsonQuotaSpec r3 _ _ _ _ _ w y h
      (by obtain ⟨m, ⟨d, e⟩⟩ := y; simp only at hq; rw [hq])
  · obtain ⟨y, hy, hq⟩ := hb
    subst hy
    simp only [step, createQuotaSpecBinding_eq_upsert env memClient (hstore _ _ _)]
    exact upsert_mem_settled env.jsonQuotaSpecBinding r4 _ _ _ _ _ w y h
      (by obtain ⟨m, d⟩ := y; simp only at hq; rw [hq])

theorem keyOf_injective (s : String) (i j : Nat) (hi : i < 5) (hj : j < 5)
    (h : keyOf s i = keyOf s j) : i = j := by
  unfold keyOf at h
  exact kindOf_injective i j hi hj (congrArg Prod.fst h)

theorem reconcile_mem_first (env : Env Store) (hstore : StoreBacked env) (s src : String)
    (n : Nat) :
    ∀ (k : Nat) (w : World Store), k + n = 5 →
      (∀ i, k ≤ i → i < 5 → ∀ b, w.remote (keyOf s i) = some b → DecodesAt env i b) →
      (reconcile env s src k n w).1 = .ret ⟨201, ""⟩ ∧
      (∀ i, k ≤ i → i < 5 →
        ∃ b, (reconcile env s src k n w).2.remote (keyOf s i) = some b ∧
          BodyOK env s src i b) ∧
      (∀ key, (∀ i, k ≤ i → i < 5 → key ≠ keyOf s i) →
        (reconcile env s src k n w).2.remote key = w.remote key) := by
  induction n with
  | zero =>
    intro k w hk _
    refine ⟨rfl, ?_, ?_⟩
    · intro i h1 h2
      omega
    · intro key _
      rfl
  | succ n ih =>
    intro k w hk hdec
    obtain ⟨verb, b2, hb2, hstep⟩ := step_mem_first env hstore s src k (by omega) w
      (hdec k (le_refl k) (by omega))
    have hsucc : succeeded (step env s src k w).1 = true := by
      rw [hstep]
      rfl
    rw [reconcile_step_succeeded env s src k n w hsucc, hstep]
    have hne : ∀ i, k + 1 ≤ i → i < 5 → keyOf s i ≠ keyOf s k := by
      intro i h1 h2 he
      have := keyOf_injective s i k h2 (by omega) he
      omega
    obtain ⟨h201, hset, hother⟩ := ih (k + 1)
      { remote := Function.update w.remote (keyOf s k) (some b2),
        trace := w.trace ++
          [getReq (kindOf k) "lance-test" (nameOf s k),
            ⟨verb, kindOf k, "lance-test", nameOf s k, some b2⟩] }
      (by omega)
      (by
        intro i h1 h2 b hb
        simp only [Function.update_noteq (hne i h1 h2)] at hb
        exact hdec i (by omega) h2 b hb)
    refine ⟨h201, ?_, ?_⟩
    · intro i h1 h2
      by_cases hik : i = k
      · subst hik
        refine ⟨b2, ?_, hb2⟩
        rw [hother (keyOf s i) (fun j hj1 hj2 he => hne j hj1 hj2 he.symm)]
        simp
      · exact hset i (by omega) h2
    · intro key hkey
      rw [hother key (fun i h1 h2 => hkey i (by omega) h2)]
      simp only [Function.update_noteq (hkey k (le_refl k) (by omega))]

theorem reconcile_mem_second (env : Env Store) (hstore : StoreBacked env)
    (hrt : EnvRoundTrips env) (s src : String) (n : Nat) :
    ∀ (k : Nat) (w : World Store), k + n = 5 →
      (∀ i, k ≤ i → i < 5 → ∃ b, w.remote (keyOf s i) = some b ∧ BodyOK env s src i b) →
      ∃ t, reconcile env s src k n w =
          (.ret ⟨201, ""⟩, { remote := w.remote, trace := w.trace ++ t }) ∧
        t.map verbTarget = expectedUpdates s k n := by
  induction n with
  | zero =>
    intro k w _ _
    exact ⟨[], by simp [reconcile], rfl⟩
  | succ n ih =>
    intro k w hk hset
    obtain ⟨b, hb, hok⟩ := hset k (le_refl k) (by omega)
    have hstep := step_mem_second env hstore hrt s src k (by omega) w b hb hok
    have hsucc : succeeded (step env s src k w).1 = true := by
      rw [hstep]
      rfl
    rw [reconcile_step_succeeded env s src k n w hsucc, hstep]
    obtain ⟨t, ht, hm⟩ := ih (k + 1)
      { remote := w.remote,
        trace := w.trace ++
          [getReq (kindOf k) "lance-test" (nameOf s k),
            ⟨.PUT, kindOf k, "lance-test", nameOf s k, some b⟩] }
      (by omega) (fun i h1 h2 => hset i (by omega) h2)
    refine ⟨getReq (kindOf k) "lance-test" (nameOf s k) ::
      ⟨.PUT, kindOf k, "lance-test", nameOf s k, some b⟩ :: t, ?_, ?_⟩
    · rw [ht]
      simp
    · simp only [List.map_cons, hm, expectedUpdates]
      rfl

/-- C4, amended: over the in-memory store, with codecs that read back, as an
object, what they write, and from any initial store in which each of the five
resources of the service is absent or holds a payload that decodes to an
object, two runs of
`HandleRateLimit` in succession on the same accepted request (limit map with
exactly one key) both answer 201; the second run leaves the store exactly as
the first run left it, so the five resources hold the same payloads; and the
second run sends, for each of the five kinds in order, its GET and then a
PUT, never a POST. -/
theorem idempotent (env : Env Store) (hstore : StoreBacked env) (hrt : EnvRoundTrips env)
    (r : http.Request) (s k : String) (v : Int) (ha : Accepted env r s [(k, v)])
    (w : World Store)
    (hinit : ∀ i, i < 5 → ∀ b, w.remote (keyOf s i) = some b → DecodesAt env i b) :
    (handlers.HandleRateLimit env r w).1 = .ret ⟨201, ""⟩ ∧
    (handlers.HandleRateLimit env r (handlers.HandleRateLimit env r w).2).1 = .ret ⟨201, ""⟩ ∧
    (handlers.HandleRateLimit env r (handlers.HandleRateLimit env r w).2).2.remote =
      (handlers.HandleRateLimit env r w).2.remote ∧
    (∀ key ∈ [ ("quotas", "lance-test", "requestcount-" ++ s),
               ("memquotas", "lance-test", "handler-" ++ s),
               ("rules", "lance-test", "quota-" ++ s),
               ("quotaspecs", "lance-test", "request-count-" ++ s),
               ("quotaspecbindings", "lance-test", "request-count-binding-" ++ s) ],
      ∃ b, (handlers.HandleRateLimit env r w).2.remote key = some b ∧
        (handlers.HandleRateLimit env r (handlers.HandleRateLimit env r w).2).2.remote key =
          some b) ∧
    (newCalls (handlers.HandleRateLimit env r w).2
        (handlers.HandleRateLimit env r (handlers.HandleRateLimit env r w).2).2).map
        verbTarget =
      [ (.GET, "quotas", "requestcount-" ++ s), (.PUT, "quotas", "requestcount-" ++ s),
        (.GET, "memquotas", "handler-" ++ s), (.PUT, "memquotas", "handler-" ++ s),
        (.GET, "rules", "quota-" ++ s), (.PUT, "rules", "quota-" ++ s),
        (.GET, "quotaspecs", "request-count-" ++ s),
        (.PUT, "quotaspecs", "request-count-" ++ s),
        (.GET, "quotaspecbindings", "request-count-binding-" ++ s),
        (.PUT, "quotaspecbindings", "request-count-binding-" ++ s) ] := by
  have e1 := HandleRateLimit_eq_reconcile env r s [(k, v)] ha w
  have e2 := HandleRateLimit_eq_reconcile env r s [(k, v)] ha
    (handlers.HandleRateLimit env r w).2
  rw [firstKey_cons] at e1 e2
  obtain ⟨h201, hset, _⟩ := reconcile_mem_first env hstore s k 5 0 w rfl
    (fun i _ hi => hinit i hi)
  rw [← e1] at h201 hset
  obtain ⟨t, ht, hm⟩ := reconcile_mem_second env hstore hrt s k 5 0
    (handlers.HandleRateLimit env r w).2 rfl hset
  rw [← e2] at ht
  refine ⟨h201, by rw [ht], by rw [ht], ?_, ?_⟩
  · intro key hkey
    rw [ht]
    simp only [List.mem_cons, List.mem_singleton, List.not_mem_nil, or_false] at hkey
    rcases hkey with h | h | h | h | h
    · obtain ⟨b, hb, _⟩ := hset 0 (by omega) (by omega)
      exact ⟨b, by rw [h]; exact hb, by rw [h]; exact hb⟩
    · obtain ⟨b, hb, _⟩ := hset 1 (by omega) (by omega)
      exact ⟨b, by rw [h]; exact hb, by rw [h]; exact hb⟩
    · obtain ⟨b, hb, _⟩ := hset 2 (by omega) (by omega)
      exact ⟨b, by rw [h]; exact hb, by rw [h]; exact hb⟩
    · obtain ⟨b, hb, _⟩ := hset 3 (by omega) (by omega)
      exact ⟨b, by rw [h]; exact hb, by rw [h]; exact hb⟩
    · obtain ⟨b, hb, _⟩ := hset 4 (by omega) (by omega)
      exact ⟨b, by rw [h]; exact hb, by rw [h]; exact hb⟩
  · rw [ht, newCalls_append _ _ t rfl, hm]
    rfl

/-! ## Concrete runs -/

theorem wireCodec_roundTrips (α : Type) [Wire α] : RoundTrips (wireCodec α) := by
  intro x
  have h := Wire.get_put x []
  rw [List.append_nil] at h
  simp only [wireCodec, h]

theorem memEnv_roundTrips (chassis : model.Chassis) : EnvRoundTrips (memEnv chassis) :=
  ⟨wireCodec_roundTrips _, wireCodec_roundTrips _, wireCodec_roundTrips _,
    wireCodec_roundTrips _, wireCodec_roundTrips _⟩

theorem ratings_accepted :
    Accepted ratingsEnv (requestFor "ratings") "ratings" [("reviews", 5)] :=
  ⟨rfl, ⟨[], rfl, rfl⟩, by decide, rfl, by decide⟩

theorem seededWorld_decodes :
    ∀ i, i < 5 → ∀ b, seededWorld.remote (keyOf "ratings" i) = some b →
      DecodesAt ratingsEnv i b := by
  intro i hi b hb
  interval_cases i
  · simp [seededWorld, keyOf, kindOf, nameOf] at hb
  · have hk : keyOf "ratings" 1 = ("memquotas", "lance-test", "handler-ratings") := by decide
    rw [hk] at hb
    simp only [seededWorld, if_true, Option.some.injEq] at hb
    subst hb
    exact ⟨oldMemQuota, wireCodec_roundTrips _ oldMemQuota⟩
  · simp [seededWorld, keyOf, kindOf, nameOf] at hb
  · simp [seededWorld, keyOf, kindOf, nameOf] at hb
  · simp [seededWorld, keyOf, kindOf, nameOf] at hb

/-- C1 on the code: the store answers the GET of quotas/`requestcount-ratings`
with status 200, no error and the payload `null`, which decodes without error
to no object. `createQuota` then neither returns a decode error nor sends a
PUT: it panics right after its GET (the nil dereference of line 135), and
`HandleRateLimit` panics with it. The four sibling functions have the same
shape (lines 53, 92, 173, 211). -/
theorem createQuota_panics_on_null :
    (rest.Do memClient (getReq "quotas" "lance-test" "requestcount-ratings")
      nullQuotaWorld).1 = ⟨[0], none, 200⟩ ∧
    ratingsEnv.jsonQuota.Unmarshal [0] = .ok none ∧
    (handlers.createQuota ratingsEnv "requestcount-ratings" "lance-test" quotaDimensions
      nullQuotaWorld).1 = .panic ∧
    (handlers.createQuota ratingsEnv "requestcount-ratings" "lance-test" quotaDimensions
      nullQuotaWorld).2.trace = [getReq "quotas" "lance-test" "requestcount-ratings"] ∧
    (handlers.HandleRateLimit ratingsEnv (requestFor "ratings") nullQuotaWorld).1 = .panic := by
  refine ⟨by decide, rfl, by decide, by decide, by decide⟩

/-- C4, as stated, fails: when the store holds under the name of the Rule a
payload that does not decode, both runs answer 500, and the second run sends
a PUT for quotas and memquotas only, then the GET for rules, and nothing for
quotaspecs and quotaspecbindings. -/
theorem second_run_stops_at_undecodable_rule :
    (handlers.HandleRateLimit ratingsEnv (requestFor "ratings") brokenRuleWorld).1 =
      .ret ⟨500, "invalid payload"⟩ ∧
    (handlers.HandleRateLimit ratingsEnv (requestFor "ratings")
      (handlers.HandleRateLimit ratingsEnv (requestFor "ratings") brokenRuleWorld).2).1 =
      .ret ⟨500, "invalid payload"⟩ ∧
    (newCalls (handlers.HandleRateLimit ratingsEnv (requestFor "ratings") brokenRuleWorld).2
      (handlers.HandleRateLimit ratingsEnv (requestFor "ratings")
        (handlers.HandleRateLimit ratingsEnv (requestFor "ratings")
          brokenRuleWorld).2).2).map verbTarget =
      [ (.GET, "quotas", "requestcount-ratings"), (.PUT, "quotas", "requestcount-ratings"),
        (.GET, "memquotas", "handler-ratings"), (.PUT, "memquotas", "handler-ratings"),
        (.GET, "rules", "quota-ratings") ] := by
  refine ⟨?_, ?_, ?_⟩ <;> decide

theorem update_path_frame_witness :
    (ratingsEnv.CreateRestClient "/apis" "config.istio.io" "v1alpha2" = .ok memClient ∧
      ratingsEnv.CreateRestClient "apis" "config.istio.io" "v1alpha2" = .ok memClient) ∧
    (UpdateFrame
        (handlers.createQuota ratingsEnv "requestcount-ratings" "lance-test" quotaDimensions)
        memClient ratingsEnv.jsonQuota "quotas" "lance-test" "requestcount-ratings"
        (fun x y => y.meta = x.meta ∧ y.Spec.extra = x.Spec.extra ∧
          y.Spec.Dimensions = quotaDimensions) ∧
      UpdateFrame
        (handlers.createMemQuota ratingsEnv "requestcount-ratings" "lance-test" quotaDimensions)
        memClient ratingsEnv.jsonMemQuota "memquotas" "lance-test" "requestcount-ratings"
        (fun x y => y.meta = x.meta ∧ y.Spec.extra = x.Spec.extra ∧
          y.Spec.Quotas = [paramsQuota "requestcount-ratings" quotaDimensions] ∧
          y.Spec.Quotas.length = 1) ∧
      UpdateFrame (handlers.createRule ratingsEnv "requestcount-ratings" "lance-test" [])
        memClient ratingsEnv.jsonRule "rules" "lance-test" "requestcount-ratings"
        (fun x y => y.meta = x.meta ∧ y.Spec.extra = x.Spec.extra ∧ y.Spec.Actions = []) ∧
      UpdateFrame (handlers.createQuotaSpec ratingsEnv "requestcount-ratings" "lance-test" [])
        memClient ratingsEnv.jsonQuotaSpec "quotaspecs" "lance-test" "requestcount-ratings"
        (fun x y => y.meta = x.meta ∧ y.Spec.extra = x.Spec.extra ∧ y.Spec.Rules = []) ∧
      UpdateFrame
        (handlers.createQuotaSpecBinding ratingsEnv "requestcount-ratings" "lance-test"
          (bindingOf "ratings" "reviews"))
        memClient ratingsEnv.jsonQuotaSpecBinding "quotaspecbindings" "lance-test"
        "requestcount-ratings"
        (fun x y => y.meta = x.meta ∧ y.Spec = bindingOf "ratings" "reviews")) :=
  ⟨⟨rfl, rfl⟩,
    update_path_frame ratingsEnv memClient memClient rfl rfl "requestcount-ratings"
      "lance-test" quotaDimensions [] [] (bindingOf "ratings" "reviews")⟩

theorem upsert_functions_calls_witness :
    (ratingsEnv.CreateRestClient "/apis" "config.istio.io" "v1alpha2" = .ok memClient ∧
      ratingsEnv.CreateRestClient "apis" "config.istio.io" "v1alpha2" = .ok memClient) ∧
    (OneReadAtMostOneWrite
        (handlers.createQuota ratingsEnv "requestcount-ratings" "lance-test" quotaDimensions)
        memClient ratingsEnv.jsonQuota "quotas" "lance-test" "requestcount-ratings" ∧
      OneReadAtMostOneWrite
        (handlers.createMemQuota ratingsEnv "requestcount-ratings" "lance-test" quotaDimensions)
        memClient ratingsEnv.jsonMemQuota "memquotas" "lance-test" "requestcount-ratings" ∧
      OneReadAtMostOneWrite (handlers.createRule ratingsEnv "requestcount-ratings" "lance-test" [])
        memClient ratingsEnv.jsonRule "rules" "lance-test" "requestcount-ratings" ∧
      OneReadAtMostOneWrite
        (handlers.createQuotaSpec ratingsEnv "requestcount-ratings" "lance-test" [])
        memClient ratingsEnv.jsonQuotaSpec "quotaspecs" "lance-test" "requestcount-ratings" ∧
      OneReadAtMostOneWrite
        (handlers.createQuotaSpecBinding ratingsEnv "requestcount-ratings" "lance-test"
          (bindingOf "ratings" "reviews"))
        memClient ratingsEnv.jsonQuotaSpecBinding "quotaspecbindings" "lance-test"
        "requestcount-ratings") :=
  ⟨⟨rfl, rfl⟩,
    upsert_functions_calls ratingsEnv memClient memClient rfl rfl "requestcount-ratings"
      "lance-test" quotaDimensions [] [] (bindingOf "ratings" "reviews")⟩

theorem write_order_witness :
    (handlers.HandleRateLimit ratingsEnv (requestFor "ratings") emptyWorld).1 =
      .ret ⟨201, ""⟩ ∧
    ∃ t, (handlers.HandleRateLimit ratingsEnv (requestFor "ratings") emptyWorld).2.trace =
        emptyWorld.trace ++ t ∧
      t.map (fun q => (isWrite q, q.resource)) =
        [ (false, "quotas"), (true, "quotas"), (false, "memquotas"), (true, "memquotas"),
          (false, "rules"), (true, "rules"), (false, "quotaspecs"), (true, "quotaspecs"),
          (false, "quotaspecbindings"), (true, "quotaspecbindings") ] ∧
      (t.filter isWrite).map (fun q => q.resource) =
        ["quotas", "memquotas", "rules", "quotaspecs", "quotaspecbindings"] :=
  ⟨by decide, write_order ratingsEnv (requestFor "ratings") emptyWorld (by decide)⟩

theorem resource_names_witness :
    Accepted (memEnv ⟨[("frontend", 10)]⟩) (requestFor "checkout") "checkout"
      [("frontend", 10)] ∧
    (handlers.HandleRateLimit (memEnv ⟨[("frontend", 10)]⟩) (requestFor "checkout")
      emptyWorld).1 = .ret ⟨201, ""⟩ ∧
    (handlers.HandleRateLimit (memEnv ⟨[("frontend", 10)]⟩) (requestFor "checkout")
        emptyWorld).2.trace.map (fun q => (q.verb, q.resource, q.ns, q.name)) =
      [ (.GET, "quotas", "lance-test", "requestcount-checkout"),
        (.POST, "quotas", "lance-test", "requestcount-checkout"),
        (.GET, "memquotas", "lance-test", "handler-checkout"),
        (.POST, "memquotas", "lance-test", "handler-checkout"),
        (.GET, "rules", "lance-test", "quota-checkout"),
        (.POST, "rules", "lance-test", "quota-checkout"),
        (.GET, "quotaspecs", "lance-test", "request-count-checkout"),
        (.POST, "quotaspecs", "lance-test", "request-count-checkout"),
        (.GET, "quotaspecbindings", "lance-test", "request-count-binding-checkout"),
        (.POST, "quotaspecbindings", "lance-test", "request-count-binding-checkout") ] ∧
    (handlers.HandleRateLimit (memEnv ⟨[("frontend", 10)]⟩) (requestFor "checkout")
        emptyWorld =
      runUpserts 0
        [ handlers.createQuota (memEnv ⟨[("frontend", 10)]⟩) ("requestcount-" ++ "checkout")
            "lance-test" quotaDimensions,
          handlers.createMemQuota (memEnv ⟨[("frontend", 10)]⟩) ("handler-" ++ "checkout")
            "lance-test"
            [("destination", "checkout"),
              ("source", handlers.firstKey [("frontend", 10)] "" 0)],
          handlers.createRule (memEnv ⟨[("frontend", 10)]⟩) ("quota-" ++ "checkout")
            "lance-test"
            [{ Handler := ("handler-" ++ "checkout") ++ ".memquota",
               Instances := ["requestcount.quota"] }],
          handlers.createQuotaSpec (memEnv ⟨[("frontend", 10)]⟩)
            ("request-count-" ++ "checkout") "lance-test"
            [{ Match := [], Quotas := [{ Quota := "quota-" ++ "checkout", Charge := 1 }] }],
          handlers.createQuotaSpecBinding (memEnv ⟨[("frontend", 10)]⟩)
            ("request-count-binding-" ++ "checkout") "lance-test"
            (bindingOf "checkout" (handlers.firstKey [("frontend", 10)] "" 0)) ]
        emptyWorld ∧
      ∃ t, (handlers.HandleRateLimit (memEnv ⟨[("frontend", 10)]⟩) (requestFor "checkout")
          emptyWorld).2.trace = emptyWorld.trace ++ t ∧
        (∀ c, (memEnv ⟨[("frontend", 10)]⟩).CreateRestClient "/apis" "config.istio.io"
            "v1alpha2" = .ok c →
          ∃ t2, t = getReq "quotas" "lance-test" ("requestcount-" ++ "checkout") :: t2) ∧
        (∀ q ∈ t, (q.resource, q.name) ∈
          [ ("quotas", "requestcount-" ++ "checkout"), ("memquotas", "handler-" ++ "checkout"),
            ("rules", "quota-" ++ "checkout"), ("quotaspecs", "request-count-" ++ "checkout"),
            ("quotaspecbindings", "request-count-binding-" ++ "checkout") ]) ∧
        ((handlers.HandleRateLimit (memEnv ⟨[("frontend", 10)]⟩) (requestFor "checkout")
            emptyWorld).1 = .ret ⟨201, ""⟩ →
          t.map (fun q => (isWrite q, q.resource, q.name)) =
            [ (false, "quotas", "requestcount-" ++ "checkout"),
              (true, "quotas", "requestcount-" ++ "checkout"),
              (false, "memquotas", "handler-" ++ "checkout"),
              (true, "memquotas", "handler-" ++ "checkout"),
              (false, "rules", "quota-" ++ "checkout"), (true, "rules", "quota-" ++ "checkout"),
              (false, "quotaspecs", "request-count-" ++ "checkout"),
              (true, "quotaspecs", "request-count-" ++ "checkout"),
              (false, "quotaspecbindings", "request-count-binding-" ++ "checkout"),
              (true, "quotaspecbindings", "request-count-binding-" ++ "checkout") ])) :=
  ⟨⟨rfl, ⟨[], rfl, rfl⟩, by decide, rfl, by decide⟩, by decide, by decide,
    resource_names (memEnv ⟨[("frontend", 10)]⟩) (requestFor "checkout") "checkout"
      [("frontend", 10)] ⟨rfl, ⟨[], rfl, rfl⟩, by decide, rfl, by decide⟩ emptyWorld⟩

theorem fail_fast_witness :
    (Accepted ratingsEnv (requestFor "ratings") "ratings" [("reviews", 5)] ∧ 2 < 5 ∧
      (∀ j, j < 2 →
        succeeded (outcomeOf ratingsEnv "ratings" (handlers.firstKey [("reviews", 5)] "" 0) j
          brokenRuleWorld) = true) ∧
      ∃ bs e, outcomeOf ratingsEnv "ratings" (handlers.firstKey [("reviews", 5)] "" 0) 2
        brokenRuleWorld = .ret (bs, some e)) ∧
    ((handlers.HandleRateLimit ratingsEnv (requestFor "ratings") brokenRuleWorld).2 =
        worldBefore ratingsEnv "ratings" (handlers.firstKey [("reviews", 5)] "" 0) (2 + 1)
          brokenRuleWorld ∧
      (∃ text, (handlers.HandleRateLimit ratingsEnv (requestFor "ratings") brokenRuleWorld).1 =
        .ret ⟨500, text⟩) ∧
      ∃ t, (handlers.HandleRateLimit ratingsEnv (requestFor "ratings") brokenRuleWorld).2.trace =
          brokenRuleWorld.trace ++ t ∧
        ∀ q ∈ t, ∀ j, 2 < j → j < 5 → q.resource ≠ kindOf j) :=
  have hprev : ∀ j, j < 2 →
      succeeded (outcomeOf ratingsEnv "ratings" (handlers.firstKey [("reviews", 5)] "" 0) j
        brokenRuleWorld) = true := by
    intro j hj
    interval_cases j <;> decide
  have hfail : ∃ bs e, outcomeOf ratingsEnv "ratings" (handlers.firstKey [("reviews", 5)] "" 0) 2
      brokenRuleWorld = .ret (bs, some e) :=
    ⟨[], ⟨"invalid payload", false⟩, by decide⟩
  ⟨⟨ratings_accepted, by omega, hprev, hfail⟩,
    fail_fast ratingsEnv (requestFor "ratings") "ratings" [("reviews", 5)] ratings_accepted
      brokenRuleWorld 2 (by omega) hprev hfail⟩

theorem translation_witness :
    Accepted ratingsEnv (requestFor "ratings") "ratings" [("reviews", 5)] ∧
    (handlers.HandleRateLimit ratingsEnv (requestFor "ratings") emptyWorld).1 =
      .ret ⟨201, ""⟩ ∧
    (handlers.HandleRateLimit ratingsEnv (requestFor "ratings") emptyWorld).2.trace.get? 3 =
      some ⟨.POST, "memquotas", "lance-test", "handler-ratings",
        some (ratingsEnv.jsonMemQuota.Marshal
          { meta := { name := "handler-ratings", ns := "lance-test", extra := [] },
            Spec :=
              { Quotas :=
                  [{ Name := "memquota-quota-handler-ratings", MaxAmount := 1000,
                     ValidDuration := 1000000000,
                     Overrides :=
                       [{ Dimensions := [("destination", "ratings"), ("source", "reviews")],
                          MaxAmount := 1, ValidDuration := 5000000000 }] }],
                extra := [] } })⟩ ∧
    (handlers.HandleRateLimit ratingsEnv (requestFor "ratings") emptyWorld).2.trace.get? 9 =
      some ⟨.POST, "quotaspecbindings", "lance-test", "request-count-binding-ratings",
        some (ratingsEnv.jsonQuotaSpecBinding.Marshal
          { meta := { name := "request-count-binding-ratings", ns := "lance-test",
                      extra := [] },
            Spec :=
              { Services :=
                  [ { Name := "ratings", Namespace := "default", Domain := "", Service := "",
                      Labels := [] },
                    { Name := "reviews", Namespace := "default", Domain := "", Service := "",
                      Labels := [] } ],
                QuotaSpecs :=
                  [{ Name := "request-count-ratings", Namespace := "lance-test" }] } })⟩ ∧
    (handlers.HandleRateLimit ratingsEnv (requestFor "ratings") emptyWorld =
      runUpserts 0
        [ handlers.createQuota ratingsEnv ("requestcount-" ++ "ratings") "lance-test"
            quotaDimensions,
          handlers.createMemQuota ratingsEnv ("handler-" ++ "ratings") "lance-test"
            [("destination", "ratings"), ("source", "reviews")],
          handlers.createRule ratingsEnv ("quota-" ++ "ratings") "lance-test"
            [{ Handler := ("handler-" ++ "ratings") ++ ".memquota",
               Instances := ["requestcount.quota"] }],
          handlers.createQuotaSpec ratingsEnv ("request-count-" ++ "ratings") "lance-test"
            [{ Match := [], Quotas := [{ Quota := "quota-" ++ "ratings", Charge := 1 }] }],
          handlers.createQuotaSpecBinding ratingsEnv ("request-count-binding-" ++ "ratings")
            "lance-test"
            { Services :=
                [ { Name := "ratings", Namespace := "default", Domain := "", Service := "",
                    Labels := [] },
                  { Name := "reviews", Namespace := "default", Domain := "", Service := "",
                    Labels := [] } ],
              QuotaSpecs :=
                [{ Name := "request-count-" ++ "ratings", Namespace := "lance-test" }] } ]
        emptyWorld ∧
      (∀ c2, ratingsEnv.CreateRestClient "apis" "config.istio.io" "v1alpha2" = .ok c2 →
        Builds
          (handlers.createMemQuota ratingsEnv ("handler-" ++ "ratings") "lance-test"
            [("destination", "ratings"), ("source", "reviews")])
          c2 ratingsEnv.jsonMemQuota "memquotas" "lance-test" ("handler-" ++ "ratings")
          (fun m => m.Spec.Quotas =
            [{ Name := "memquota-quota-" ++ ("handler-" ++ "ratings"), MaxAmount := 1000,
               ValidDuration := 1000000000,
               Overrides := [{ Dimensions := [("destination", "ratings"), ("source", "reviews")],
                               MaxAmount := 1, ValidDuration := 5000000000 }] }])) ∧
      (∀ c, ratingsEnv.CreateRestClient "/apis" "config.istio.io" "v1alpha2" = .ok c →
        Builds
          (handlers.createQuotaSpecBinding ratingsEnv ("request-count-binding-" ++ "ratings")
            "lance-test"
            { Services :=
                [ { Name := "ratings", Namespace := "default", Domain := "", Service := "",
                    Labels := [] },
                  { Name := "reviews", Namespace := "default", Domain := "", Service := "",
                    Labels := [] } ],
              QuotaSpecs :=
                [{ Name := "request-count-" ++ "ratings", Namespace := "lance-test" }] })
          c ratingsEnv.jsonQuotaSpecBinding "quotaspecbindings" "lance-test"
          ("request-count-binding-" ++ "ratings")
          (fun b => b.Spec.Services =
            [ { Name := "ratings", Namespace := "default", Domain := "", Service := "",
                Labels := [] },
              { Name := "reviews", Namespace := "default", Domain := "", Service := "",
                Labels := [] } ])) ∧
      ∃ t, (handlers.HandleRateLimit ratingsEnv (requestFor "ratings") emptyWorld).2.trace =
          emptyWorld.trace ++ t ∧
        (∀ q ∈ t, isWrite q = true → q.resource = "memquotas" →
          ∃ m : model.StructMemQuota, q.body = some (ratingsEnv.jsonMemQuota.Marshal m) ∧
            m.Spec.Quotas =
              [{ Name := "memquota-quota-" ++ ("handler-" ++ "ratings"), MaxAmount := 1000,
                 ValidDuration := 1000000000,
                 Overrides := [{ Dimensions := [("destination", "ratings"), ("source", "reviews")],
                                 MaxAmount := 1, ValidDuration := 5000000000 }] }]) ∧
        (∀ q ∈ t, isWrite q = true → q.resource = "quotaspecbindings" →
          ∃ b : model.StructQuotaSpecBinding,
            q.body = some (ratingsEnv.jsonQuotaSpecBinding.Marshal b) ∧
            b.Spec.Services =
              [ { Name := "ratings", Namespace := "default", Domain := "", Service := "",
                  Labels := [] },
                { Name := "reviews", Namespace := "default", Domain := "", Service := "",
                  Labels := [] } ]) ∧
        ((handlers.HandleRateLimit ratingsEnv (requestFor "ratings") emptyWorld).1 =
            .ret ⟨201, ""⟩ →
          (∃ q ∈ t, isWrite q = true ∧ q.resource = "memquotas") ∧
          (∃ q ∈ t, isWrite q = true ∧ q.resource = "quotaspecbindings"))) :=
  ⟨ratings_accepted, by decide, by decide, by decide,
    translation ratingsEnv (requestFor "ratings") "ratings" "reviews" 5 ratings_accepted
      emptyWorld⟩

theorem empty_limit_proceeds_witness :
    Accepted (memEnv ⟨[]⟩) (requestFor "ratings") "ratings" [] ∧
    ∃ t, (handlers.HandleRateLimit (memEnv ⟨[]⟩) (requestFor "ratings") emptyWorld).2.trace =
        emptyWorld.trace ++ t ∧
      (∀ c, (memEnv ⟨[]⟩).CreateRestClient "/apis" "config.istio.io" "v1alpha2" = .ok c →
        ∃ t2, t = getReq "quotas" "lance-test" ("requestcount-" ++ "ratings") :: t2) ∧
      (∀ q ∈ t, isWrite q = true → q.resource = "memquotas" →
        ∃ m : model.StructMemQuota, q.body = some ((memEnv ⟨[]⟩).jsonMemQuota.Marshal m) ∧
          m.Spec.Quotas =
            [{ Name := "memquota-quota-" ++ ("handler-" ++ "ratings"), MaxAmount := 1000,
               ValidDuration := 1000000000,
               Overrides := [{ Dimensions := [("destination", "ratings"), ("source", "")],
                               MaxAmount := 1, ValidDuration := 5000000000 }] }]) ∧
      (∀ q ∈ t, isWrite q = true → q.resource = "quotaspecbindings" →
        ∃ b : model.StructQuotaSpecBinding,
          q.body = some ((memEnv ⟨[]⟩).jsonQuotaSpecBinding.Marshal b) ∧
          b.Spec.Services =
            [ { Name := "ratings", Namespace := "default", Domain := "", Service := "",
                Labels := [] },
              { Name := "", Namespace := "default", Domain := "", Service := "",
                Labels := [] } ]) :=
  ⟨⟨rfl, ⟨[], rfl, rfl⟩, by decide, rfl, by decide⟩,
    empty_limit_proceeds (memEnv ⟨[]⟩) (requestFor "ratings") "ratings"
      ⟨rfl, ⟨[], rfl, rfl⟩, by decide, rfl, by decide⟩ emptyWorld⟩

theorem idempotent_witness :
    (StoreBacked ratingsEnv ∧ EnvRoundTrips ratingsEnv ∧
      Accepted ratingsEnv (requestFor "ratings") "ratings" [("reviews", 5)] ∧
      ∀ i, i < 5 → ∀ b, seededWorld.remote (keyOf "ratings" i) = some b →
        DecodesAt ratingsEnv i b) ∧
    ((handlers.HandleRateLimit ratingsEnv (requestFor "ratings") seededWorld).1 =
        .ret ⟨201, ""⟩ ∧
      (handlers.HandleRateLimit ratingsEnv (requestFor "ratings")
        (handlers.HandleRateLimit ratingsEnv (requestFor "ratings") seededWorld).2).1 =
        .ret ⟨201, ""⟩ ∧
      (handlers.HandleRateLimit ratingsEnv (requestFor "ratings")
        (handlers.HandleRateLimit ratingsEnv (requestFor "ratings") seededWorld).2).2.remote =
        (handlers.HandleRateLimit ratingsEnv (requestFor "ratings") seededWorld).2.remote ∧
      (∀ key ∈ [ ("quotas", "lance-test", "requestcount-" ++ "ratings"),
                 ("memquotas", "lance-test", "handler-" ++ "ratings"),
                 ("rules", "lance-test", "quota-" ++ "ratings"),
                 ("quotaspecs", "lance-test", "request-count-" ++ "ratings"),
                 ("quotaspecbindings", "lance-test", "request-count-binding-" ++ "ratings") ],
        ∃ b, (handlers.HandleRateLimit ratingsEnv (requestFor "ratings") seededWorld).2.remote
            key = some b ∧
          (handlers.HandleRateLimit ratingsEnv (requestFor "ratings")
            (handlers.HandleRateLimit ratingsEnv (requestFor "ratings")
              seededWorld).2).2.remote key = some b) ∧
      (newCalls (handlers.HandleRateLimit ratingsEnv (requestFor "ratings") seededWorld).2
          (handlers.HandleRateLimit ratingsEnv (requestFor "ratings")
            (handlers.HandleRateLimit ratingsEnv (requestFor "ratings") seededWorld).2).2).map
          verbTarget =
        [ (.GET, "quotas", "requestcount-" ++ "ratings"),
          (.PUT, "quotas", "requestcount-" ++ "ratings"),
          (.GET, "memquotas", "handler-" ++ "ratings"),
          (.PUT, "memquotas", "handler-" ++ "ratings"),
          (.GET, "rules", "quota-" ++ "ratings"), (.PUT, "rules", "quota-" ++ "ratings"),
          (.GET, "quotaspecs", "request-count-" ++ "ratings"),
          (.PUT, "quotaspecs", "request-count-" ++ "ratings"),
          (.GET, "quotaspecbindings", "request-count-binding-" ++ "ratings"),
          (.PUT, "quotaspecbindings", "request-count-binding-" ++ "ratings") ]) :=
  ⟨⟨fun _ _ _ => rfl, memEnv_roundTrips _, ratings_accepted, seededWorld_decodes⟩,
    idempotent ratingsEnv (fun _ _ _ => rfl) (memEnv_roundTrips _) (requestFor "ratings")
      "ratings" "reviews" 5 ratings_accepted seededWorld seededWorld_decodes⟩
